import Mathlib

/-!
CSV record import: tokenizer, mapping store, auto-match and import orchestration.

A shallow embedding of `force-app/main/default/lwc/csvRecordImport/csvRecordImport.js`.

Modelling conventions.

* A JavaScript string is a list of characters (`Str`); one `Char` stands for one
  UTF-16 code unit.  None of the characters the program inspects (`,`, `"`, `_`,
  `-`, line feed, white space) lies outside the basic plane.
* A plain JavaScript object used as a dictionary (`fieldMapping`, a parsed row,
  `newMapping`, `cleanedMapping`) is an association list `Obj` of its own properties,
  whose keys are kept distinct by `Obj.set`.  The keys of the mapping objects are field
  API names, which come from the schema and are never `__proto__`.  The keys of a parsed
  row are header names, which are user text: there the assignment `row[header] = value`
  with the header `__proto__` reaches the setter of `Object.prototype`, which ignores a
  string, and stores no property (`buildRow`).
* `String.prototype.toLowerCase` is a parameter `lower` of the definitions that use it;
  `asciiLower` is the instance used for evaluation on ASCII inputs.
* Promise callbacks (`FileReader.onload`, the `then`/`catch` continuations of the Apex
  calls, the continuation after `await`) are separate transitions of the state machine.
* `console.log` output is not modelled; toasts and calls of the import executor are
  recorded in the state.
-/

namespace CsvRecordImport

/-- A JavaScript string, as the list of its code units. -/
abbrev Str := List Char

/-! ## String primitives -/

/-- White space in the sense of `String.prototype.trim` and of the regular-expression
class `\s`: the ECMAScript WhiteSpace and LineTerminator code points. -/
def isWhiteSpace (c : Char) : Bool :=
  let n := c.toNat
  n = 0x09 || n = 0x0A || n = 0x0B || n = 0x0C || n = 0x0D || n = 0x20 || n = 0xA0 ||
  n = 0x1680 || (0x2000 ≤ n && n ≤ 0x200A) || n = 0x2028 || n = 0x2029 || n = 0x202F ||
  n = 0x205F || n = 0x3000 || n = 0xFEFF

/-- The method `String.prototype.trim`. -/
def trim (s : Str) : Str :=
  ((s.dropWhile isWhiteSpace).reverse.dropWhile isWhiteSpace).reverse

/-- The call `s.split(sep)` for a one-character separator: never the empty list. -/
def splitOnChar (sep : Char) : Str → List Str
  | [] => [[]]
  | c :: cs =>
    if c = sep then [] :: splitOnChar sep cs
    else
      match splitOnChar sep cs with
      | [] => [[c]]
      | w :: ws => (c :: w) :: ws

/-- The method `String.prototype.startsWith`. -/
def startsWith (s pre : Str) : Bool := pre.isPrefixOf s

/-- The method `String.prototype.endsWith`. -/
def endsWith (s suf : Str) : Bool := suf.reverse.isPrefixOf s.reverse

/-- The method `String.prototype.substring`: both indices are clamped to the length and
swapped when the first exceeds the second. -/
def substring (s : Str) (a b : Nat) : Str :=
  let a1 := min a s.length
  let b1 := min b s.length
  (s.drop (min a1 b1)).take (max a1 b1 - min a1 b1)

/-- The method `String.prototype.includes`. -/
def includes (s sub : Str) : Bool := s.tails.any (fun t => sub.isPrefixOf t)

/-- The call `s.replace(pat, rep)` with a string pattern: only the first occurrence of
`pat` is replaced. -/
def replaceFirst (pat rep : Str) : Str → Str
  | [] => if pat = [] then rep else []
  | c :: cs =>
    if pat.isPrefixOf (c :: cs) then rep ++ (c :: cs).drop pat.length
    else c :: replaceFirst pat rep cs

/-- Lower-casing of the ASCII letters, the instance of `toLowerCase` used on ASCII inputs. -/
def asciiLower (s : Str) : Str :=
  s.map (fun c => if 'A'.toNat ≤ c.toNat ∧ c.toNat ≤ 'Z'.toNat then Char.ofNat (c.toNat + 32) else c)

/-! ## Plain objects used as dictionaries -/

/-- A plain object whose own properties are strings: the entries in insertion order. -/
abbrev Obj := List (Str × Str)

namespace Obj

/-- The read `o[k]`; `none` stands for `undefined`. -/
def get (o : Obj) (k : Str) : Option Str :=
  match o with
  | [] => none
  | e :: rest => if e.1 = k then some e.2 else get rest k

/-- The write `o[k] = v`: an existing key keeps its place, a new key goes last. -/
def set (o : Obj) (k v : Str) : Obj :=
  match o with
  | [] => [(k, v)]
  | e :: rest => if e.1 = k then (k, v) :: rest else e :: set rest k v

/-- The statement `delete o[k]`. -/
def delete (o : Obj) (k : Str) : Obj := o.filter (fun e => decide (e.1 ≠ k))

/-- The call `Object.keys(o)`. -/
def keys (o : Obj) : List Str := o.map Prod.fst

/-- The call `Object.values(o)`. -/
def values (o : Obj) : List Str := o.map Prod.snd

/-- The keys of an object are pairwise distinct. -/
def WF (o : Obj) : Prop := o.keys.Nodup

instance (o : Obj) : Decidable o.WF := inferInstanceAs (Decidable (o.keys.Nodup))

end Obj

/-! ## CSV tokenizer -/

/-- The `for` loop of `parseCSVLine`: `result`, `current` and `inQuotes` are the three
local variables; the value is `result` after the final `result.push(current)`. -/
def parseCSVLineLoop : Str → List Str → Str → Bool → List Str
  | [], result, current, _ => result ++ [current]
  | char :: rest, result, current, inQuotes =>
    if char = '"' then parseCSVLineLoop rest result current (!inQuotes)
    else if char = ',' ∧ inQuotes = false then parseCSVLineLoop rest (result ++ [current]) [] inQuotes
    else parseCSVLineLoop rest result (current ++ [char]) inQuotes

/-- The clean-up callback of `parseCSVLine`: one leading and one trailing quote are
removed from a field that starts and ends with `"`. -/
def stripQuotes (field : Str) : Str :=
  if startsWith field ['"'] && endsWith field ['"'] then substring field 1 (field.length - 1)
  else field

/-- The method `parseCSVLine`. -/
def parseCSVLine (line : Str) : List Str :=
  (parseCSVLineLoop line [] [] false).map stripQuotes

/-- The property name `__proto__`, the accessor inherited from `Object.prototype`. -/
def protoKey : Str := "__proto__".toList

/-- One row object built by `parseCSV`: the callback of `headers.forEach` assigns
`row[header]` the trimmed value at the same index, or the empty string past the end.
The row starts as `{}`, so for the header `__proto__` the assignment calls the inherited
setter, which ignores a string value: no property is stored. -/
def buildRow (headers values : List Str) : Obj :=
  headers.enum.foldl
    (fun row (p : Nat × Str) =>
      let value := if p.1 < values.length then values.getD p.1 [] else []
      let trimmedValue := trim value
      if p.2 = protoKey then row else row.set p.2 trimmedValue)
    []

/-- The body of the `for` loop of `parseCSV` for one line `lines[i]`, `i ≥ 1`. -/
def parseCSVStep (headers : List Str) (rows : List Obj) (rawLine : Str) : List Obj :=
  let line := trim rawLine
  if line ≠ [] then rows ++ [buildRow headers (parseCSVLine line)] else rows

/-- The method `parseCSV`. -/
def parseCSV (csvContent : Str) : List Obj :=
  let lines := splitOnChar '\n' csvContent
  let headers := parseCSVLine (lines.headD [])
  (lines.drop 1).foldl (parseCSVStep headers) []

/-- The header derivation of `handleFileUpload`: the non-blank lines of the text. -/
def nonBlankLines (fileContent : Str) : List Str :=
  (splitOnChar '\n' fileContent).filter (fun line => decide ((trim line).length > 0))

/-- The header derivation of `handleFileUpload`:
`lines[0].split(',').map(h => h.trim().replace(/"/g, ''))`. -/
def headersOfLine (line : Str) : List Str :=
  (splitOnChar ',' line).map (fun h => (trim h).filter (fun c => decide (c ≠ '"')))

/-! ## Mapping cleaner -/

/-- The sentinel value of the "not applicable" option. -/
def NA : Str := "N/A".toList

/-- The callback of `Object.keys(this.fieldMapping).forEach` in `processRecordImport`. -/
def cleanStep (fieldMapping : Obj) (csvHeaders : List Str) (cleanedMapping : Obj)
    (fieldName : Str) : Obj :=
  match fieldMapping.get fieldName with
  | none => cleanedMapping
  | some csvColumn =>
    if csvColumn ≠ [] ∧ csvColumn ≠ NA ∧ trim csvColumn ≠ [] ∧ csvColumn ∈ csvHeaders then
      cleanedMapping.set fieldName csvColumn
    else cleanedMapping

/-- The `cleanedMapping` built in `processRecordImport`. -/
def cleanMapping (fieldMapping : Obj) (csvHeaders : List Str) : Obj :=
  fieldMapping.keys.foldl (cleanStep fieldMapping csvHeaders) []

/-! ## Auto-match engine -/

/-- A target field as returned by `getAvailableFields`. -/
structure Field where
  apiName : Str
  label : Str
deriving DecidableEq

/-- The alias table: an object from field API names to arrays of candidate header names. -/
abbrev AliasTable := List (Str × List Str)

/-- The read `directMappings[apiName]`; `none` stands for `undefined`. -/
def AliasTable.get (t : AliasTable) (k : Str) : Option (List Str) :=
  match t with
  | [] => none
  | e :: rest => if e.1 = k then some e.2 else AliasTable.get rest k

/-- Truthiness of a value that is `null` or a string. -/
def truthy : Option Str → Bool
  | some (_ :: _) => true
  | _ => false

/-- Membership in the character class `[a-zA-Z0-9_]`. -/
def isWordChar (c : Char) : Bool :=
  let n := c.toNat
  ('a'.toNat ≤ n && n ≤ 'z'.toNat) || ('A'.toNat ≤ n && n ≤ 'Z'.toNat) ||
  ('0'.toNat ≤ n && n ≤ '9'.toNat) || c = '_'

/-- Membership in the character class `[\s_-]`. -/
def isWordSep (c : Char) : Bool := isWhiteSpace c || c = '_' || c = '-'

/-- The call `s.split(/[\s_-]+/)`: the pieces between maximal runs of separators. -/
def splitWords : Str → List Str
  | [] => [[]]
  | c :: cs =>
    if isWordSep c then
      match cs with
      | [] => [[], []]
      | d :: _ => if isWordSep d then splitWords cs else [] :: splitWords cs
    else
      match splitWords cs with
      | [] => [[c]]
      | w :: ws => (c :: w) :: ws

section AutoMatch

variable (lower : Str → Str)

/-- The normalisation of the alias pass:
`s.trim().toLowerCase().replace(/[\s-]/g, '_').replace(/[^a-zA-Z0-9_]/g, '')`. -/
def normalize (s : Str) : Str :=
  ((lower (trim s)).map (fun c => if isWhiteSpace c || c = '-' then '_' else c)).filter isWordChar

/-- The first loop of the alias pass: `foundMatch` after scanning `possibleMatches` for a
header whose trimmed lower-case form equals the lower-case alias. -/
def aliasExact (csvHeaders : List Str) : List Str → Option Str
  | [] => none
  | m :: rest =>
    match csvHeaders.find? (fun h => decide (lower (trim h) = lower m)) with
    | some h => some h
    | none => aliasExact csvHeaders rest

/-- The second loop of the alias pass, over the normalised aliases. -/
def aliasNormalized (csvHeaders : List Str) : List Str → Option Str
  | [] => none
  | normalizedMatch :: rest =>
    match csvHeaders.find? (fun h => decide (normalize lower h = normalizedMatch)) with
    | some h => some h
    | none => aliasNormalized csvHeaders rest

/-- The value of `foundMatch` after both loops of the alias pass. -/
def aliasPass (csvHeaders possibleMatches normalizedPossibleMatches : List Str) : Option Str :=
  let foundMatch := aliasExact lower csvHeaders possibleMatches
  if truthy foundMatch then foundMatch
  else
    match aliasNormalized lower csvHeaders normalizedPossibleMatches with
    | some h => some h
    | none => foundMatch

/-- The similarity score of the fuzzy pass.  The scores `1.0`, `0.8` and
`0.5 * (commonWords / max)` are kept as exact rationals.  The program only compares
scores (`>` between two scores, `>= 0.5`); for word counts below `2 ^ 26` two different
quotients round to different doubles in the same order, and halving is exact, so every
comparison has the same outcome on the doubles as on the rationals. -/
def similarity (header apiName : Str) : ℚ :=
  let normalizedHeader := lower header
  let normalizedField := replaceFirst "__c".toList [] (lower apiName)
  if normalizedHeader = normalizedField then 1
  else if includes normalizedHeader normalizedField || includes normalizedField normalizedHeader then
    4 / 5
  else
    let headerWords := splitWords normalizedHeader
    let fieldWords := splitWords normalizedField
    let commonWords := (headerWords.filter (fun word =>
      fieldWords.any (fun fieldWord =>
        decide (word = fieldWord) || includes word fieldWord || includes fieldWord word))).length
    if commonWords > 0 then
      (1 / 2) * ((commonWords : ℚ) / ((max headerWords.length fieldWords.length : Nat) : ℚ))
    else 0

/-- The callback of `this.csvHeaders.forEach` in the fuzzy pass; the pair is
`(bestMatch, bestScore)`. -/
def fuzzyStep (newMapping : Obj) (apiName : Str) (best : Option Str × ℚ) (header : Str) :
    Option Str × ℚ :=
  if header ∈ newMapping.values then best
  else
    let score := similarity lower header apiName
    if score > best.2 then (some header, score) else best

/-- The pair `(bestMatch, bestScore)` after the fuzzy pass over all headers. -/
def fuzzyPass (csvHeaders : List Str) (newMapping : Obj) (apiName : Str) : Option Str × ℚ :=
  csvHeaders.foldl (fuzzyStep lower newMapping apiName) (none, 0)

/-- The fuzzy pass and its acceptance test for one field. -/
def fuzzyMatch (csvHeaders : List Str) (newMapping : Obj) (field : Field) : Obj :=
  let best := fuzzyPass lower csvHeaders newMapping field.apiName
  match best.1 with
  | some bestMatch =>
    if best.2 ≥ 1 / 2 ∧ bestMatch ≠ [] ∧ bestMatch ∈ csvHeaders then
      newMapping.set field.apiName bestMatch
    else newMapping
  | none => newMapping

/-- The callback of `this.availableFields.forEach` in `handleAutoMatch`. -/
def autoMatchField (directMappings : AliasTable) (csvHeaders : List Str) (newMapping : Obj)
    (field : Field) : Obj :=
  match directMappings.get field.apiName with
  | some possibleMatches =>
    let normalizedPossibleMatches := possibleMatches.map (normalize lower)
    let foundMatch := aliasPass lower csvHeaders possibleMatches normalizedPossibleMatches
    match foundMatch with
    | some (c :: cs) =>
      if (c :: cs) ∈ csvHeaders then newMapping.set field.apiName (c :: cs) else newMapping
    | _ => fuzzyMatch lower csvHeaders newMapping field
  | none => fuzzyMatch lower csvHeaders newMapping field

/-- The object `newMapping` after the loop over `availableFields`. -/
def autoMatchLoop (directMappings : AliasTable) (availableFields : List Field)
    (csvHeaders : List Str) : Obj :=
  availableFields.foldl (autoMatchField lower directMappings csvHeaders) []

end AutoMatch

/-! ## Component state -/

/-- The wizard step held in `currentStep`. -/
inductive Step where
  | upload
  | mapping
  | processing
  | summary
deriving DecidableEq

/-- A toast dispatched by `showToast`. -/
structure Toast where
  title : Str
  message : Str
  variant : Str
deriving DecidableEq

/-- One element of `fieldMappingItems`; an option is a pair of label and value. -/
structure MappingItem where
  label : Str
  apiName : Str
  mappedTo : Str
  csvOptions : List (Str × Str)
deriving DecidableEq

/-- One element of `event.detail.draftValues`; `mappedTo` may be `null`. -/
structure DraftValue where
  apiName : Str
  mappedTo : Option Str
deriving DecidableEq

/-- The file handed to `handleFileUpload`, with the text `readAsText` delivers. -/
structure File where
  name : Str
  type : Str
  size : Nat
  content : Str
deriving DecidableEq

/-- The value the import executor resolves to. -/
structure ImportResult where
  success : Bool
deriving DecidableEq

/-- The argument of one call of the Apex method `processRecordImport`. -/
structure ExecutorCall where
  parentId : Str
  parentField : Str
  objectToCreate : Str
  mappingMetadataObject : Str
  csvContent : Str
  fileName : Str
  csvRows : List Obj
  fieldMapping : Obj
deriving DecidableEq

/-- The fields of the component, the toasts shown so far and the executor calls made so
far.  `maxRecords` is `none` when the property is `null` or `undefined`. -/
structure State where
  recordId : Str
  parentFieldReference : Str
  maxRecords : Option Int
  objectToCreate : Str
  mappingMetadataObject : Str
  showPreviousButton : Bool
  currentStep : Step
  uploadedFileName : Str
  fileContent : Str
  isProcessing : Bool
  importResults : Option ImportResult
  availableFields : List Field
  csvHeaders : List Str
  fieldMapping : Obj
  fieldMappingItems : List MappingItem
  draftValues : List DraftValue
  defaultFieldMapping : Obj
  directMappings : Option AliasTable
  toasts : List Toast
  executorCalls : List ExecutorCall
deriving DecidableEq

/-- The field initialisers of the class, for given values of the public properties. -/
def State.init (recordId parentFieldReference : Str) (maxRecords : Option Int)
    (objectToCreate mappingMetadataObject : Str) : State where
  recordId := recordId
  parentFieldReference := parentFieldReference
  maxRecords := maxRecords
  objectToCreate := objectToCreate
  mappingMetadataObject := mappingMetadataObject
  showPreviousButton := false
  currentStep := Step.upload
  uploadedFileName := []
  fileContent := []
  isProcessing := false
  importResults := none
  availableFields := []
  csvHeaders := []
  fieldMapping := []
  fieldMappingItems := []
  draftValues := []
  defaultFieldMapping := []
  directMappings := none
  toasts := []
  executorCalls := []

/-- The constant `MAX_FILE_SIZE`. -/
def MAX_FILE_SIZE : Nat := 10485760

/-- The method `showToast`. -/
def showToast (s : State) (title message variant : Str) : State :=
  { s with toasts := s.toasts ++ [{ title := title, message := message, variant := variant }] }

/-- The callback of `this.availableFields.map` in `updateFieldMappingItems`. -/
def mappingItem (fieldMapping : Obj) (csvHeaders : List Str) (field : Field) : MappingItem :=
  let mappedTo : Str :=
    match fieldMapping.get field.apiName with
    | some (c :: cs) => if (c :: cs) ∈ csvHeaders then c :: cs else []
    | _ => []
  let options : List (Str × Str) :=
    [("-- N/A --".toList, "N/A".toList)] ++
      (csvHeaders.filter (fun header => decide (header ≠ [] ∧ trim header ≠ []))).map
        (fun header => (header, header))
  { label := field.label, apiName := field.apiName, mappedTo := mappedTo, csvOptions := options }

/-- The method `updateFieldMappingItems`. -/
def updateFieldMappingItems (s : State) : State :=
  if s.availableFields.length = 0 then s
  else { s with fieldMappingItems := s.availableFields.map (mappingItem s.fieldMapping s.csvHeaders) }

/-- The method `loadAvailableFields` up to its return: the request `getAvailableFields`
is issued and no field changes; the continuations are `availableFieldsLoaded`,
`defaultFieldMappingLoaded` and `loadFailed`. -/
def loadAvailableFields (s : State) : State := s

/-- The first `then` callback of `loadAvailableFields`. -/
def availableFieldsLoaded (s : State) (result : List Field) : State :=
  { s with availableFields := result }

/-- The second `then` callback of `loadAvailableFields`. -/
def defaultFieldMappingLoaded (s : State) (result : Obj) : State :=
  updateFieldMappingItems { s with defaultFieldMapping := result, fieldMapping := [] }

/-- The `catch` callback of `loadAvailableFields`; `errorMessage` is the value of
`getErrorMessage(error)`. -/
def loadFailed (s : State) (errorMessage : Str) : State :=
  showToast s "Error".toList ("Error loading field configuration: ".toList ++ errorMessage)
    "error".toList

/-! ## Upload -/

/-- The test `lines.length - 1 > this.maxRecords && this.maxRecords != null`. -/
def exceedsMaxRecords (lineCount : Nat) (maxRecords : Option Int) : Bool :=
  match maxRecords with
  | some m => decide ((lineCount : Int) - 1 > m)
  | none => false

/-- The text of a number inside a template string. -/
def numText (n : Int) : Str := (toString n).toList

/-- The callback `reader.onload` of `handleFileUpload`; `result` is `e.target.result`. -/
def readerOnload (s : State) (result : Str) : State :=
  let s1 := { s with fileContent := result }
  let lines := nonBlankLines s1.fileContent
  if exceedsMaxRecords lines.length s1.maxRecords then
    let s2 := showToast s1 "Error".toList
      ("CSV file exceeds maximum record limit of ".toList ++
        (match s1.maxRecords with | some m => numText m | none => "null".toList))
      "error".toList
    { s2 with fileContent := [], uploadedFileName := [] }
  else if lines.length > 0 then
    let s2 := { s1 with csvHeaders := headersOfLine (lines.headD []), fieldMapping := [] }
    let s3 := updateFieldMappingItems s2
    showToast s3 "Success".toList
      ("CSV file loaded successfully. Found ".toList ++ numText s3.csvHeaders.length ++
        " columns.".toList)
      "success".toList
  else s1

/-- The two guards at the head of `handleFileUpload`: the file is handed to the reader. -/
def fileAccepted (file : File) : Bool :=
  !(decide (file.size > MAX_FILE_SIZE)) &&
  !(decide (file.type ≠ "text/csv".toList) && !(endsWith file.name ".csv".toList))

/-- The method `handleFileUpload` up to its return, before the reader calls back. -/
def handleFileUploadStart (s : State) (file : File) : State :=
  if file.size > MAX_FILE_SIZE then
    showToast s "Error".toList "File size exceeds maximum limit of 10MB".toList "error".toList
  else if file.type ≠ "text/csv".toList ∧ endsWith file.name ".csv".toList = false then
    showToast s "Error".toList "Please upload a CSV file".toList "error".toList
  else { s with uploadedFileName := file.name }

/-- The method `handleFileUpload` followed by the `onload` callback of its reader. -/
def handleFileUpload (s : State) (file : File) : State :=
  if fileAccepted file then readerOnload (handleFileUploadStart s file) file.content
  else handleFileUploadStart s file

/-! ## Mapping edits -/

/-- The method `handleMappingAction`; `actionName` is `event.detail.action.name`. -/
def handleMappingAction (s : State) (actionName : Str) (row : MappingItem) : State :=
  if actionName = "clear_selection".toList then
    let updatedMapping := s.fieldMapping.delete row.apiName
    let s1 := updateFieldMappingItems { s with fieldMapping := updatedMapping }
    showToast s1 "Success".toList ("Mapping cleared for ".toList ++ row.label) "success".toList
  else s

/-- The callback of `draftValues.forEach` in `handleCellChange`. -/
def applyDraftValue (s : State) (draftValue : DraftValue) : State :=
  let fieldApiName := draftValue.apiName
  match draftValue.mappedTo with
  | none => { s with fieldMapping := s.fieldMapping.delete fieldApiName }
  | some newMappedValue =>
    if newMappedValue = NA ∨ newMappedValue = [] then
      { s with fieldMapping := s.fieldMapping.delete fieldApiName }
    else if newMappedValue ∈ s.csvHeaders then
      { s with fieldMapping := s.fieldMapping.set fieldApiName newMappedValue }
    else
      showToast s "Warning".toList
        ("CSV column \"".toList ++ newMappedValue ++ "\" not found in uploaded file".toList)
        "warning".toList

/-- The method `handleCellChange`; `none` stands for an absent `draftValues`. -/
def handleCellChange (s : State) (draftValues : Option (List DraftValue)) : State :=
  match draftValues with
  | none => s
  | some [] => s
  | some (d :: ds) =>
    let s1 := (d :: ds).foldl applyDraftValue s
    let s2 := updateFieldMappingItems s1
    showToast { s2 with draftValues := [] } "Success".toList "Field mapping updated".toList
      "success".toList

/-! ## Auto-match and import -/

/-- The method `handleAutoMatch`.  The table consulted by the loop is the local constant
`directMappings = {}`; the table fetched by `getTargetFieldMappings` arrives later, in
`targetFieldMappingsLoaded`. -/
def handleAutoMatch (lower : Str → Str) (s : State) : State :=
  if s.csvHeaders.length = 0 then
    showToast s "Warning".toList "Please upload a CSV file first before auto-matching".toList
      "warning".toList
  else
    let directMappings : AliasTable := []
    let newMapping := autoMatchLoop lower directMappings s.availableFields s.csvHeaders
    let s1 := updateFieldMappingItems { s with fieldMapping := newMapping }
    let matchCount := newMapping.keys.length
    let totalFields := s.availableFields.length
    showToast s1 "Success".toList
      ("Auto-match completed: ".toList ++ numText matchCount ++ " of ".toList ++
        numText totalFields ++ " fields matched with existing CSV columns.".toList)
      "success".toList

/-- The `then` callback of `getTargetFieldMappings` in `handleAutoMatch`. -/
def targetFieldMappingsLoaded (s : State) (result : AliasTable) : State :=
  { s with directMappings := some result }

/-- The `finally` block of `processRecordImport`. -/
def importFinally (s : State) : State :=
  { s with isProcessing := false, currentStep := Step.summary, showPreviousButton := false }

/-- The argument object of the executor call in `processRecordImport`. -/
def executorCall (s : State) (rows : List Obj) (cleanedMapping : Obj) : ExecutorCall where
  parentId := s.recordId
  parentField := s.parentFieldReference
  objectToCreate := s.objectToCreate
  mappingMetadataObject := s.mappingMetadataObject
  csvContent := s.fileContent
  fileName := s.uploadedFileName
  csvRows := rows
  fieldMapping := cleanedMapping

/-- The method `processRecordImport` up to its first suspension: either it returns early
(and the `finally` block runs), or it calls the executor and waits at `await`. -/
def processRecordImport (s : State) : State :=
  let s1 := { s with isProcessing := true }
  let mappingsCount := s1.fieldMapping.keys.length
  if mappingsCount = 0 then
    let s2 := showToast s1 "Warning".toList
      "No field mappings configured. Please map at least one field before importing.".toList
      "warning".toList
    importFinally { s2 with isProcessing := false }
  else
    let rows := parseCSV s1.fileContent
    let cleanedMapping := cleanMapping s1.fieldMapping s1.csvHeaders
    if cleanedMapping.keys.length = 0 then
      let s2 := showToast s1 "Error".toList
        "No valid field mappings found. Please ensure your CSV contains the expected columns.".toList
        "error".toList
      importFinally { s2 with isProcessing := false }
    else
      { s1 with executorCalls := s1.executorCalls ++ [executorCall s1 rows cleanedMapping] }

/-- The rest of `processRecordImport` once the executor call settles: `Except.ok` is the
resolved value, `Except.error` the value of `getErrorMessage(error)` of a rejection. -/
def processRecordImportSettled (s : State) (outcome : Except Str ImportResult) : State :=
  match outcome with
  | Except.ok result =>
    let s1 := { s with importResults := some result }
    let s2 :=
      if result.success then
        showToast s1 "Success".toList "Classes imported successfully".toList "success".toList
      else
        showToast s1 "Error".toList "Some errors occurred during import".toList "error".toList
    importFinally s2
  | Except.error errorMessage =>
    let s1 := showToast s "Error".toList
      ("An error occurred while importing the Classes: ".toList ++ errorMessage) "error".toList
    importFinally { s1 with currentStep := Step.mapping }

/-! ## Wizard navigation -/

/-- The method `handleNext`. -/
def handleNext (lower : Str → Str) (s : State) : State :=
  if s.currentStep = Step.upload then
    let s1 := { s with showPreviousButton := true }
    let s2 := handleAutoMatch lower s1
    let s3 :=
      if s2.availableFields.length > 0 then updateFieldMappingItems s2
      else loadAvailableFields s2
    { s3 with currentStep := Step.mapping }
  else if s.currentStep = Step.mapping then
    processRecordImport { s with currentStep := Step.processing }
  else s

/-- The method `handlePrevious`. -/
def handlePrevious (s : State) : State :=
  if s.currentStep = Step.mapping then
    { s with currentStep := Step.upload, showPreviousButton := false }
  else if s.currentStep = Step.processing then { s with currentStep := Step.mapping }
  else if s.currentStep = Step.summary then { s with currentStep := Step.mapping }
  else s

/-- The method `handleFinish`. -/
def handleFinish (s : State) : State :=
  { s with currentStep := Step.upload, uploadedFileName := [], fileContent := [] }

/-- The events of the component: the handlers and the callbacks of pending requests. -/
inductive Action where
  | fileUpload (file : File)
  | fileSelected (file : File)
  | readerLoaded (result : Str)
  | next
  | previous
  | finish
  | mappingAction (actionName : Str) (row : MappingItem)
  | cellChange (draftValues : Option (List DraftValue))
  | autoMatch
  | reloadFields
  | fieldsLoaded (result : List Field)
  | defaultMappingLoaded (result : Obj)
  | fieldsFailed (errorMessage : Str)
  | aliasesLoaded (result : AliasTable)
  | importSettled (outcome : Except Str ImportResult)

/-- One transition of the component. -/
def step (lower : Str → Str) (s : State) : Action → State
  | Action.fileUpload file => handleFileUpload s file
  | Action.fileSelected file => handleFileUploadStart s file
  | Action.readerLoaded result => readerOnload s result
  | Action.next => handleNext lower s
  | Action.previous => handlePrevious s
  | Action.finish => handleFinish s
  | Action.mappingAction actionName row => handleMappingAction s actionName row
  | Action.cellChange draftValues => handleCellChange s draftValues
  | Action.autoMatch => handleAutoMatch lower s
  | Action.reloadFields => loadAvailableFields s
  | Action.fieldsLoaded result => availableFieldsLoaded s result
  | Action.defaultMappingLoaded result => defaultFieldMappingLoaded s result
  | Action.fieldsFailed errorMessage => loadFailed s errorMessage
  | Action.aliasesLoaded result => targetFieldMappingsLoaded s result
  | Action.importSettled outcome => processRecordImportSettled s outcome

/-- A state is reachable when a finite sequence of events leads to it from the initial
state of the component. -/
inductive Reachable (lower : Str → Str) : State → Prop where
  | init (recordId parentFieldReference : Str) (maxRecords : Option Int)
      (objectToCreate mappingMetadataObject : Str) :
      Reachable lower
        (State.init recordId parentFieldReference maxRecords objectToCreate mappingMetadataObject)
  | step (s : State) (a : Action) : Reachable lower s → Reachable lower (step lower s a)

/-! ## Sample session -/

/-- A session used to exercise the transitions: one target field is loaded, a two-column
file is uploaded and the wizard moves to the mapping step. -/
def sampleSession : State :=
  step asciiLower
    (step asciiLower
      (step asciiLower (State.init [] [] none [] [])
        (Action.fieldsLoaded [{ apiName := "Name__c".toList, label := "Name".toList }]))
      (Action.fileUpload
        { name := "a.csv".toList, type := "text/csv".toList, size := 12,
          content := "Name,Age\nx,1".toList }))
    Action.next

/-- A session in which two target fields have the same best header: both `Name__c` and
`Name` score 1.0 on the header `Name`, and `Name` scores 0.8 on `Full Name`. -/
def conflictSession : State :=
  step asciiLower
    (step asciiLower (State.init [] [] none [] [])
      (Action.fieldsLoaded
        [{ apiName := "Name__c".toList, label := "Name".toList },
         { apiName := "Name".toList, label := "Name".toList }]))
    (Action.fileUpload
      { name := "a.csv".toList, type := "text/csv".toList, size := 20,
        content := "Name,Full Name\nx,y".toList })

/-- The file uploaded in `sampleSession`. -/
def sampleFile : File :=
  { name := "a.csv".toList, type := "text/csv".toList, size := 12,
    content := "Name,Age\nx,1".toList }

/-- The session `sampleSession` after the user went back to the upload step. -/
def reuploadSession : State := step asciiLower sampleSession Action.previous

/-- A session whose file has a header `N/A` and a header made of one space (written
`" "` in the file), with two target fields `A__c` and `A_B__c`. -/
def sentinelSession : State :=
  step asciiLower
    (step asciiLower (State.init [] [] none [] [])
      (Action.fieldsLoaded
        [{ apiName := "A__c".toList, label := "A".toList },
         { apiName := "A_B__c".toList, label := "A B".toList }]))
    (Action.fileUpload
      { name := "b.csv".toList, type := "text/csv".toList, size := 14,
        content := "N/A,\" \"\n1,2".toList })

/-- A file with CRLF line ends. -/
def crlfContent : Str := "Name,Email\r\nAda,ada@x.org\r\n".toList

/-- A session at the mapping step in which auto-match found nothing: the only target
field `Zip__c` has no similar header in the file `Name` / `Ada`. -/
def unmappedSession : State :=
  step asciiLower
    (step asciiLower
      (step asciiLower (State.init [] [] none [] [])
        (Action.fieldsLoaded [{ apiName := "Zip__c".toList, label := "Zip".toList }]))
      (Action.fileUpload
        { name := "c.csv".toList, type := "text/csv".toList, size := 8,
          content := "Name\nAda".toList }))
    Action.next

/-! ## Texts built from lines and cells -/

/-- The call `xs.join(sep)` for a one-character separator. -/
def joinWith (sep : Char) : List Str → Str
  | [] => []
  | [x] => x
  | x :: y :: rest => x ++ sep :: joinWith sep (y :: rest)

/-- The text with all blank (empty or white-space-only) lines removed. -/
def removeBlankLines (text : Str) : Str := joinWith '\n' (nonBlankLines text)

/-- The text of a grid: the cells of each row joined with `,`, the rows joined with a
line feed, the header row first. -/
def gridText (header : List Str) (rows : List (List Str)) : Str :=
  joinWith '\n' ((header :: rows).map (joinWith ','))

/-- A text whose first line is blank. -/
def leadingBlankContent : Str := "\nA,B\n1,2".toList

/-- A session with an executor call outstanding: `sampleSession` after `handleNext` on
the mapping step. -/
def pendingSession : State := step asciiLower sampleSession Action.next

/-- A session with `maxRecords = 1` in which a file with one data line was uploaded. -/
def limitSession : State :=
  step asciiLower (State.init [] [] (some 1) [] [])
    (Action.fileUpload
      { name := "one.csv".toList, type := "text/csv".toList, size := 6,
        content := "Name\nx".toList })

/-- A file with two data lines. -/
def twoLineFile : File :=
  { name := "two.csv".toList, type := "text/csv".toList, size := 8,
    content := "Name\nx\ny".toList }

/-- A file with one header line and six data lines. -/
def sixLineFile : File :=
  { name := "six.csv".toList, type := "text/csv".toList, size := 16,
    content := "H\n1\n2\n3\n4\n5\n6".toList }

/-- A file whose lines are all blank. -/
def blankFile : File :=
  { name := "blank.csv".toList, type := "text/csv".toList, size := 4,
    content := "\n  \n".toList }

/-- An alias table giving the field `Zip__c` the aliases `Foo` and `Bar`. -/
def zipAliases : AliasTable := [("Zip__c".toList, ["Foo".toList, "Bar".toList])]

/-- A session whose file has the headers `Bar` and `Foo`, whose only target field is
`Zip__c`, and in which the alias table `zipAliases` has already been delivered. -/
def aliasSession : State :=
  step asciiLower
    (step asciiLower
      (step asciiLower (State.init [] [] none [] [])
        (Action.fieldsLoaded [{ apiName := "Zip__c".toList, label := "Zip".toList }]))
      (Action.fileUpload
        { name := "d.csv".toList, type := "text/csv".toList, size := 11,
          content := "Bar,Foo\n1,2".toList }))
    (Action.aliasesLoaded zipAliases)

/-- A session with `maxRecords = 5`, a loaded target field and an uploaded two-column
file, at the mapping step. -/
def limit5Session : State :=
  step asciiLower
    (step asciiLower
      (step asciiLower (State.init [] [] (some 5) [] [])
        (Action.fieldsLoaded [{ apiName := "Name__c".toList, label := "Name".toList }]))
      (Action.fileUpload sampleFile))
    Action.next

/-- The aliases `First Name`, `fname` of the alias-order example. -/
def nameAliases : List Str := ["First Name".toList, "fname".toList]

/-- The headers `first_name`, `fname` of the alias-order example. -/
def nameHeaders : List Str := ["first_name".toList, "fname".toList]

/-! ## The fuzzy score as the specification words it -/

/-- Stated in the specification: the field name "with any trailing `__c`-style suffix
marker removed", that is, a `__c` at the very end of the name is cut off and nothing else
is changed. -/
def specStripSuffix (s : Str) : Str :=
  if endsWith s "__c".toList then s.take (s.length - 3) else s

/-- The overlap test of the word-level similarity, between a header word and a field
word. -/
def wordsOverlap (word fieldWord : Str) : Bool :=
  decide (word = fieldWord) || includes word fieldWord || includes fieldWord word

/-- Stated in the specification: `0.5 * (count of field-words with any overlapping
header-word) / max(header-word-count, field-word-count)`, and 0 if no word overlaps. -/
def specWordScore (headerWords fieldWords : List Str) : ℚ :=
  let count := (fieldWords.filter (fun fieldWord =>
    headerWords.any (fun word => wordsOverlap word fieldWord))).length
  if count > 0 then
    (1 / 2) * ((count : ℚ) / ((max headerWords.length fieldWords.length : Nat) : ℚ))
  else 0

/-! ## Evaluation of the string primitives on samples -/

theorem parseCSVLine_sample :
    parseCSVLine "a,\"b,c\",d".toList = ["a".toList, "b,c".toList, "d".toList] := by decide

theorem trim_sample : trim " a b \r".toList = "a b".toList := by decide

theorem splitOnChar_sample :
    splitOnChar ',' "a,,b,".toList = ["a".toList, [], "b".toList, []] := by decide

theorem substring_sample : substring "\"".toList 1 0 = "\"".toList := by decide

theorem replaceFirst_sample :
    replaceFirst "__c".toList [] "a__c_b__c".toList = "a_b__c".toList := by decide

theorem asciiLower_sample : asciiLower "Ab_Z".toList = "ab_z".toList := by decide

theorem includes_sample :
    includes "hello".toList "ell".toList = true ∧ includes [] [] = true ∧
      includes "ab".toList "ba".toList = false := by decide

theorem splitWords_sample :
    splitWords "first_name".toList = ["first".toList, "name".toList] ∧
      splitWords "_a".toList = [[], "a".toList] ∧ splitWords "a -_b".toList = ["a".toList, "b".toList] ∧
      splitWords "a_".toList = ["a".toList, []] ∧ splitWords [] = [[]] ∧
      splitWords " ".toList = [[], []] := by decide

theorem similarity_sample :
    similarity asciiLower "Name".toList "Name__c".toList = 1 ∧
      similarity asciiLower "Full Name".toList "Name".toList = 4 / 5 ∧
      similarity asciiLower "last name".toList "Name_Last__c".toList = 1 / 2 ∧
      similarity asciiLower "zip".toList "Name__c".toList = 0 := by decide!

/-! ## Facts about the tokenizer -/

theorem parseCSVLineLoop_quoted (l rest : Str) (result : List Str) (current : Str)
    (hl : '"' ∉ l) :
    parseCSVLineLoop (l ++ rest) result current true
      = parseCSVLineLoop rest result (current ++ l) true := by
  induction l generalizing current with
  | nil => simp
  | cons c cs ih =>
    have hc : c ≠ '"' := fun h => hl (by simp [h])
    have hcs : '"' ∉ cs := fun h => hl (by simp [h])
    simp [parseCSVLineLoop, hc, ih _ hcs]

theorem parseCSVLineLoop_plain (l rest : Str) (result : List Str) (current : Str)
    (inQuotes : Bool) (hq : '"' ∉ l) (hc : ',' ∉ l) :
    parseCSVLineLoop (l ++ rest) result current inQuotes
      = parseCSVLineLoop rest result (current ++ l) inQuotes := by
  induction l generalizing current with
  | nil => simp
  | cons c cs ih =>
    have h1 : c ≠ '"' := fun h => hq (by simp [h])
    have h2 : c ≠ ',' := fun h => hc (by simp [h])
    have h3 : '"' ∉ cs := fun h => hq (by simp [h])
    have h4 : ',' ∉ cs := fun h => hc (by simp [h])
    simp [parseCSVLineLoop, h1, h2, ih _ h3 h4]

theorem stripQuotes_of_no_quote (field : Str) (h : '"' ∉ field) : stripQuotes field = field := by
  cases field with
  | nil => simp [stripQuotes, startsWith, endsWith]
  | cons c cs =>
    have hc : c ≠ '"' := fun e => h (by simp [e])
    have hc2 : ¬ ('"' = c) := fun e => hc e.symm
    simp [stripQuotes, startsWith, List.isPrefixOf, hc2]

/-- C1: a line made of an unquoted field `p`, a quoted field `q` (which may hold commas)
and an unquoted field `r` is tokenized to exactly `[p, q, r]`; the sample line
`a,"b,c",d` gives `a`, `b,c`, `d`. -/
theorem parseCSVLine_quoted_field (p q r : Str)
    (hp : ',' ∉ p ∧ '"' ∉ p) (hq : '"' ∉ q) (hr : ',' ∉ r ∧ '"' ∉ r) :
    parseCSVLine (p ++ [',', '"'] ++ q ++ ['"', ','] ++ r) = [p, q, r] := by
  have e : p ++ [',', '"'] ++ q ++ ['"', ','] ++ r
      = p ++ (',' :: '"' :: (q ++ ('"' :: ',' :: (r ++ [])))) := by simp
  rw [parseCSVLine, e, parseCSVLineLoop_plain p _ _ _ _ hp.2 hp.1]
  simp only [parseCSVLineLoop, List.nil_append]
  simp only [show (',' : Char) ≠ '"' by decide, if_false, true_and, if_true, Bool.not_false]
  rw [parseCSVLineLoop_quoted q _ _ _ hq]
  simp only [parseCSVLineLoop, if_true, Bool.not_true, List.nil_append]
  simp only [show (',' : Char) ≠ '"' by decide, if_false, true_and, if_true]
  rw [parseCSVLineLoop_plain r _ _ _ _ hr.2 hr.1]
  simp [parseCSVLineLoop, stripQuotes_of_no_quote, hp.2, hq, hr.2]

theorem parseCSVLine_quoted_field_witness :
    parseCSVLine ("a".toList ++ [',', '"'] ++ "b,c".toList ++ ['"', ','] ++ "d".toList)
      = ["a".toList, "b,c".toList, "d".toList] :=
  parseCSVLine_quoted_field "a".toList "b,c".toList "d".toList
    (by decide) (by decide) (by decide)

/-! ## Facts about objects -/

namespace Obj

theorem get_set_self (o : Obj) (k v : Str) : (o.set k v).get k = some v := by
  induction o with
  | nil => simp [set, get]
  | cons e rest ih =>
    by_cases h : e.1 = k
    · simp [set, get, h]
    · simp [set, get, h, ih]

theorem get_set_of_ne (o : Obj) (k k2 v : Str) (h : k2 ≠ k) : (o.set k v).get k2 = o.get k2 := by
  induction o with
  | nil => simp [set, get, h.symm]
  | cons e rest ih =>
    by_cases h1 : e.1 = k
    · have h2 : e.1 ≠ k2 := fun e2 => h (e2.symm.trans h1)
      simp [set, get, h1, h2, h.symm]
    · by_cases h2 : e.1 = k2
      · simp [set, get, h, h2]
      · simp [set, get, h1, h2, ih]

theorem set_of_not_mem_keys (o : Obj) (k v : Str) (h : k ∉ o.keys) : o.set k v = o ++ [(k, v)] := by
  induction o with
  | nil => simp [set]
  | cons e rest ih =>
    have h1 : e.1 ≠ k := fun e1 => h (by simp [keys, e1])
    have h2 : k ∉ keys rest := fun e2 => h (by simp [keys] at e2 ⊢; exact Or.inr e2)
    simp [set, h1, ih h2]

theorem keys_set_of_mem (o : Obj) (k v : Str) (h : k ∈ o.keys) : (o.set k v).keys = o.keys := by
  induction o with
  | nil => simp [keys] at h
  | cons e rest ih =>
    by_cases h1 : e.1 = k
    · simp [set, keys, h1]
    · have h2 : k ∈ keys rest := by
        simp only [keys, List.map_cons, List.mem_cons] at h
        rcases h with h | h
        · exact absurd h.symm h1
        · exact h
      have := ih h2
      simp only [keys] at this
      simp [set, keys, h1, this]

theorem values_set_subset (o : Obj) (k v x : Str) (h : x ∈ (o.set k v).values) :
    x = v ∨ x ∈ o.values := by
  induction o with
  | nil => simp [set, values] at h; exact Or.inl h
  | cons e rest ih =>
    by_cases h1 : e.1 = k
    · simp only [set, h1, if_true, values, List.map_cons, List.mem_cons] at h
      rcases h with h | h
      · exact Or.inl h
      · exact Or.inr (by simp only [values, List.map_cons, List.mem_cons]; exact Or.inr h)
    · simp only [set, h1, if_false, values, List.map_cons, List.mem_cons] at h
      rcases h with h | h
      · exact Or.inr (by simp [values, h])
      · rcases ih h with h2 | h2
        · exact Or.inl h2
        · exact Or.inr (by simp only [values, List.map_cons, List.mem_cons]; exact Or.inr h2)

theorem wf_set (o : Obj) (k v : Str) (h : o.WF) : (o.set k v).WF := by
  by_cases hk : k ∈ o.keys
  · simpa [WF, keys_set_of_mem o k v hk] using h
  · rw [set_of_not_mem_keys o k v hk]
    simp only [WF, keys, List.map_append, List.map_cons, List.map_nil]
    exact List.Nodup.append h (by simp) (by
      intro a ha hb
      simp only [List.mem_singleton] at hb
      exact hk (hb ▸ ha))

theorem wf_delete (o : Obj) (k : Str) (h : o.WF) : (o.delete k).WF := by
  simp only [WF, keys, delete] at h ⊢
  exact (List.Nodup.sublist (List.Sublist.map _ (List.filter_sublist o)) h)

theorem get_eq_none_of_not_mem (o : Obj) (k : Str) (h : k ∉ o.keys) : o.get k = none := by
  induction o with
  | nil => simp [get]
  | cons e rest ih =>
    have h1 : e.1 ≠ k := fun e1 => h (by simp [keys, e1])
    have h2 : k ∉ keys rest := fun e2 => h (by simp [keys] at e2 ⊢; exact Or.inr e2)
    simp [get, h1, ih h2]

theorem mem_of_get_eq_some (o : Obj) (k v : Str) (h : o.get k = some v) : (k, v) ∈ o := by
  induction o with
  | nil => simp [get] at h
  | cons e rest ih =>
    by_cases h1 : e.1 = k
    · simp only [get, h1, if_true, Option.some.injEq] at h
      have : e = (k, v) := Prod.ext h1 h
      simp [this]
    · simp only [get, h1, if_false] at h
      exact List.mem_cons_of_mem _ (ih h)

theorem get_eq_some_of_mem (o : Obj) (k v : Str) (hwf : o.WF) (h : (k, v) ∈ o) :
    o.get k = some v := by
  induction o with
  | nil => simp at h
  | cons e rest ih =>
    simp only [WF, keys, List.map_cons, List.nodup_cons] at hwf
    rcases List.mem_cons.mp h with h1 | h1
    · simp [get, ← h1]
    · have h2 : e.1 ≠ k := by
        intro e1
        exact hwf.1 (e1 ▸ List.mem_map_of_mem Prod.fst h1)
      simp only [get, h2, if_false]
      exact ih hwf.2 h1

theorem mem_values_of_mem (o : Obj) (k v : Str) (h : (k, v) ∈ o) : v ∈ o.values :=
  List.mem_map_of_mem Prod.snd h

theorem mem_keys_of_mem (o : Obj) (k v : Str) (h : (k, v) ∈ o) : k ∈ o.keys :=
  List.mem_map_of_mem Prod.fst h

end Obj

/-! ## Facts about `trim` -/

theorem trim_eq_rdropWhile (s : Str) : trim s = (s.dropWhile isWhiteSpace).rdropWhile isWhiteSpace := rfl

theorem trim_eq_nil_iff (s : Str) : trim s = [] ↔ ∀ c ∈ s, isWhiteSpace c = true := by
  rw [trim_eq_rdropWhile, List.rdropWhile_eq_nil_iff]
  constructor
  · intro h
    have h2 : s.dropWhile isWhiteSpace = [] := by
      cases hd : s.dropWhile isWhiteSpace with
      | nil => rfl
      | cons c cs =>
        have h3 := List.head_dropWhile_not isWhiteSpace s (by simp [hd])
        have h4 : isWhiteSpace c = true := h c (by simp [hd])
        simp [hd, h4] at h3
    exact List.dropWhile_eq_nil_iff.mp h2
  · intro h c hc
    exact h c ((List.dropWhile_suffix isWhiteSpace).subset hc)

theorem trim_nil : trim [] = [] := rfl

/-! ## Facts about the mapping cleaner -/

/-- The test a mapping entry passes to be kept by the cleaner. -/
theorem cleanStep_of_get (fieldMapping : Obj) (csvHeaders : List Str) (acc : Obj) (k v : Str)
    (hget : fieldMapping.get k = some v) (hk : k ∉ acc.keys) :
    cleanStep fieldMapping csvHeaders acc k
      = acc ++ [(k, v)].filter
          (fun e => decide (e.2 ≠ NA ∧ (¬ ∀ c ∈ e.2, isWhiteSpace c = true) ∧ e.2 ∈ csvHeaders)) := by
  have hne : (¬ ∀ c ∈ v, isWhiteSpace c = true) → v ≠ [] := by
    intro h e
    exact h (by simp [e])
  by_cases h1 : v ≠ NA ∧ (¬ ∀ c ∈ v, isWhiteSpace c = true) ∧ v ∈ csvHeaders
  · have h2 : v ≠ [] ∧ v ≠ NA ∧ trim v ≠ [] ∧ v ∈ csvHeaders :=
      ⟨hne h1.2.1, h1.1, fun e => h1.2.1 ((trim_eq_nil_iff v).mp e), h1.2.2⟩
    simp only [cleanStep, hget, if_pos h2]
    rw [Obj.set_of_not_mem_keys _ _ _ hk]
    simp [List.filter, h1]
  · have h2 : ¬ (v ≠ [] ∧ v ≠ NA ∧ trim v ≠ [] ∧ v ∈ csvHeaders) := by
      intro h
      exact h1 ⟨h.2.1, fun e => h.2.2.1 ((trim_eq_nil_iff v).mpr e), h.2.2.2⟩
    simp only [cleanStep, hget, if_neg h2]
    rw [List.filter_cons_of_neg (by simpa using h1)]
    simp

theorem cleanMapping_fold (csvHeaders : List Str) (pre suf : Obj) (hwf : (pre ++ suf).WF) :
    suf.keys.foldl (cleanStep (pre ++ suf) csvHeaders)
        (pre.filter
          (fun e => decide (e.2 ≠ NA ∧ (¬ ∀ c ∈ e.2, isWhiteSpace c = true) ∧ e.2 ∈ csvHeaders)))
      = (pre ++ suf).filter
          (fun e => decide (e.2 ≠ NA ∧ (¬ ∀ c ∈ e.2, isWhiteSpace c = true) ∧ e.2 ∈ csvHeaders)) := by
  induction suf generalizing pre with
  | nil => simp [Obj.keys]
  | cons e rest ih =>
    have hmem : (e.1, e.2) ∈ pre ++ e :: rest := by simp
    have hget := Obj.get_eq_some_of_mem _ _ _ hwf hmem
    have hnot : e.1 ∉ Obj.keys pre := by
      intro h
      simp only [Obj.WF, Obj.keys, List.map_append, List.map_cons] at hwf
      have := (List.nodup_append.mp hwf).2.2
      exact this (by simpa [Obj.keys] using h) (by simp)
    have hk : e.1 ∉ Obj.keys (pre.filter
        (fun e => decide (e.2 ≠ NA ∧ (¬ ∀ c ∈ e.2, isWhiteSpace c = true) ∧ e.2 ∈ csvHeaders))) := by
      intro h
      apply hnot
      simp only [Obj.keys, List.mem_map] at h ⊢
      obtain ⟨x, hx, hx1⟩ := h
      exact ⟨x, (List.mem_filter.mp hx).1, hx1⟩
    have e1 : pre ++ e :: rest = (pre ++ [e]) ++ rest := by simp
    simp only [Obj.keys, List.map_cons, List.foldl_cons]
    rw [cleanStep_of_get _ _ _ _ _ hget hk]
    have e2 : (pre.filter
        (fun e => decide (e.2 ≠ NA ∧ (¬ ∀ c ∈ e.2, isWhiteSpace c = true) ∧ e.2 ∈ csvHeaders)))
          ++ [(e.1, e.2)].filter
            (fun e => decide (e.2 ≠ NA ∧ (¬ ∀ c ∈ e.2, isWhiteSpace c = true) ∧ e.2 ∈ csvHeaders))
        = (pre ++ [e]).filter
            (fun e => decide (e.2 ≠ NA ∧ (¬ ∀ c ∈ e.2, isWhiteSpace c = true) ∧ e.2 ∈ csvHeaders)) := by
      simp [List.filter_append]
    rw [e2, e1]
    have := ih (pre ++ [e]) (by rw [← e1]; exact hwf)
    simpa [Obj.keys] using this

/-- C3: the cleaned mapping built in `processRecordImport` consists of exactly the entries
of the mapping whose value is not `N/A`, is not empty or white-space-only and is one of
the CSV headers; the kept entries are unchanged and stay in order. -/
theorem cleanMapping_eq_filter (m : Obj) (H : List Str) (hwf : m.WF) :
    cleanMapping m H
        = m.filter (fun e => decide (e.2 ≠ NA ∧ (¬ ∀ c ∈ e.2, isWhiteSpace c = true) ∧ e.2 ∈ H)) ∧
    ∀ k v, (k, v) ∈ cleanMapping m H ↔
      ((k, v) ∈ m ∧ v ≠ NA ∧ (¬ ∀ c ∈ v, isWhiteSpace c = true) ∧ v ∈ H) := by
  have h := cleanMapping_fold H [] m (by simpa using hwf)
  simp only [List.nil_append, List.filter_nil] at h
  refine ⟨h, ?_⟩
  intro k v
  rw [show cleanMapping m H = _ from h]
  simp [List.mem_filter]

theorem cleanMapping_eq_filter_witness :
    cleanMapping [("A".toList, "x".toList), ("B".toList, "N/A".toList), ("C".toList, " ".toList),
        ("D".toList, "gone".toList)] ["x".toList, "N/A".toList, " ".toList]
      = [("A".toList, "x".toList)] :=
  ((cleanMapping_eq_filter _ _ (by decide)).1).trans (by decide)

/-! ## The tokenizer and surrounding white space -/

theorem isWhiteSpace_ne_quote (c : Char) (h : isWhiteSpace c = true) : c ≠ '"' := by
  intro e
  subst e
  exact absurd h (by decide)

theorem isWhiteSpace_ne_comma (c : Char) (h : isWhiteSpace c = true) : c ≠ ',' := by
  intro e
  subst e
  exact absurd h (by decide)

theorem parseCSVLineLoop_result (l : Str) (result : List Str) (current : Str) (inQuotes : Bool) :
    parseCSVLineLoop l result current inQuotes
      = result ++ parseCSVLineLoop l [] current inQuotes := by
  induction l generalizing result current inQuotes with
  | nil => simp [parseCSVLineLoop]
  | cons c cs ih =>
    by_cases h1 : c = '"'
    · simp only [parseCSVLineLoop, h1, if_true]
      exact ih _ _ _
    · by_cases h2 : c = ',' ∧ inQuotes = false
      · simp only [parseCSVLineLoop, h1, if_false, h2, and_self, if_true]
        rw [ih (result ++ [current]), ih ([] ++ [current])]
        simp
      · simp only [parseCSVLineLoop, h1, if_false, h2]
        exact ih _ _ _

theorem parseCSVLineLoop_no_quote (l : Str) (result : List Str) (current : Str) (inQuotes : Bool)
    (hr : ∀ f ∈ result, '"' ∉ f) (hc : '"' ∉ current) :
    ∀ f ∈ parseCSVLineLoop l result current inQuotes, '"' ∉ f := by
  induction l generalizing result current inQuotes with
  | nil =>
    intro f hf
    simp only [parseCSVLineLoop, List.mem_append, List.mem_singleton] at hf
    rcases hf with hf | hf
    · exact hr f hf
    · exact hf ▸ hc
  | cons c cs ih =>
    by_cases h1 : c = '"'
    · simp only [parseCSVLineLoop, h1, if_true]
      exact ih _ _ _ hr hc
    · by_cases h2 : c = ',' ∧ inQuotes = false
      · simp only [parseCSVLineLoop, h1, if_false, h2, and_self, if_true]
        refine ih _ _ _ ?_ (by simp)
        intro f hf
        rcases List.mem_append.mp hf with hf | hf
        · exact hr f hf
        · exact (List.mem_singleton.mp hf) ▸ hc
      · simp only [parseCSVLineLoop, h1, if_false, h2]
        refine ih _ _ _ hr ?_
        intro hm
        rcases List.mem_append.mp hm with hm | hm
        · exact hc hm
        · exact h1 (List.mem_singleton.mp hm).symm

theorem parseCSVLine_eq_loop (l : Str) : parseCSVLine l = parseCSVLineLoop l [] [] false := by
  unfold parseCSVLine
  have h := parseCSVLineLoop_no_quote l [] [] false (by simp) (by simp)
  calc (parseCSVLineLoop l [] [] false).map stripQuotes
      = (parseCSVLineLoop l [] [] false).map id :=
        List.map_congr_left (fun f hf => stripQuotes_of_no_quote f (h f hf))
    _ = parseCSVLineLoop l [] [] false := List.map_id _

theorem parseCSVLineLoop_current (l : Str) (w current : Str) (inQuotes : Bool) :
    ∃ f fs, parseCSVLineLoop l [] current inQuotes = f :: fs ∧
      parseCSVLineLoop l [] (w ++ current) inQuotes = (w ++ f) :: fs := by
  induction l generalizing current inQuotes with
  | nil => exact ⟨current, [], by simp [parseCSVLineLoop], by simp [parseCSVLineLoop]⟩
  | cons c cs ih =>
    by_cases h1 : c = '"'
    · simp only [parseCSVLineLoop, h1, if_true]
      exact ih _ _
    · by_cases h2 : c = ',' ∧ inQuotes = false
      · simp only [parseCSVLineLoop, h1, if_false, h2, and_self, if_true]
        refine ⟨current, parseCSVLineLoop cs [] [] false, ?_, ?_⟩
        · rw [if_neg (by decide), parseCSVLineLoop_result cs ([] ++ [current])]; simp
        · rw [if_neg (by decide), parseCSVLineLoop_result cs ([] ++ [w ++ current])]; simp
      · simp only [parseCSVLineLoop, h1, if_false, h2]
        have := ih (current ++ [c]) inQuotes
        simpa [List.append_assoc] using this

theorem parseCSVLineLoop_suffix (l w : Str) (result : List Str) (current : Str) (inQuotes : Bool)
    (hq : '"' ∉ w) (hc : ',' ∉ w) :
    ∃ fs f, parseCSVLineLoop l result current inQuotes = fs ++ [f] ∧
      parseCSVLineLoop (l ++ w) result current inQuotes = fs ++ [f ++ w] := by
  induction l generalizing result current inQuotes with
  | nil =>
    refine ⟨result, current, by simp [parseCSVLineLoop], ?_⟩
    have := parseCSVLineLoop_plain w [] result current inQuotes hq hc
    simpa [parseCSVLineLoop] using this
  | cons c cs ih =>
    by_cases h1 : c = '"'
    · simp only [List.cons_append, parseCSVLineLoop, h1, if_true]
      exact ih _ _ _
    · by_cases h2 : c = ',' ∧ inQuotes = false
      · simp only [List.cons_append, parseCSVLineLoop, h1, if_false, h2, and_self, if_true]
        exact ih _ _ _
      · simp only [List.cons_append, parseCSVLineLoop, h1, if_false, h2]
        exact ih _ _ _

theorem trim_append_left (w s : Str) (hw : ∀ c ∈ w, isWhiteSpace c = true) :
    trim (w ++ s) = trim s := by
  unfold trim
  rw [List.dropWhile_append_of_pos hw]

theorem trim_append_right (s w : Str) (hw : ∀ c ∈ w, isWhiteSpace c = true) :
    trim (s ++ w) = trim s := by
  by_cases hs : ∀ c ∈ s, isWhiteSpace c = true
  · have h1 : trim (s ++ w) = [] := (trim_eq_nil_iff _).mpr (by
      intro c hc
      rcases List.mem_append.mp hc with h | h
      · exact hs c h
      · exact hw c h)
    rw [h1, (trim_eq_nil_iff s).mpr hs]
  · have hne : s.dropWhile isWhiteSpace ≠ [] := fun e => hs (List.dropWhile_eq_nil_iff.mp e)
    rw [trim_eq_rdropWhile, trim_eq_rdropWhile, List.dropWhile_append, if_neg (by simpa using hne)]
    simp only [List.rdropWhile, List.reverse_append]
    rw [List.dropWhile_append_of_pos (by simpa using hw)]

theorem line_eq_trim (line : Str) :
    ∃ w1 w2 : Str, (∀ c ∈ w1, isWhiteSpace c = true) ∧ (∀ c ∈ w2, isWhiteSpace c = true) ∧
      line = w1 ++ (trim line ++ w2) := by
  refine ⟨line.takeWhile isWhiteSpace, (line.dropWhile isWhiteSpace).rtakeWhile isWhiteSpace,
    fun c hc => (List.mem_takeWhile_imp hc), ?_, ?_⟩
  · intro c hc
    have : c ∈ ((line.dropWhile isWhiteSpace).reverse.takeWhile isWhiteSpace) := by
      simpa [List.rtakeWhile] using hc
    exact List.mem_takeWhile_imp this
  · have h : ∀ l : Str, l.rdropWhile isWhiteSpace ++ l.rtakeWhile isWhiteSpace = l := by
      intro l
      simp only [List.rdropWhile, List.rtakeWhile, ← List.reverse_append,
        List.takeWhile_append_dropWhile, List.reverse_reverse]
    rw [trim_eq_rdropWhile, h, List.takeWhile_append_dropWhile]

theorem map_trim_parseCSVLine_trim (line : Str) :
    (parseCSVLine (trim line)).map trim = (parseCSVLine line).map trim := by
  obtain ⟨w1, w2, h1, h2, e⟩ := line_eq_trim line
  have q1 : '"' ∉ w1 := fun h => isWhiteSpace_ne_quote _ (h1 _ h) rfl
  have c1 : ',' ∉ w1 := fun h => isWhiteSpace_ne_comma _ (h1 _ h) rfl
  have q2 : '"' ∉ w2 := fun h => isWhiteSpace_ne_quote _ (h2 _ h) rfl
  have c2 : ',' ∉ w2 := fun h => isWhiteSpace_ne_comma _ (h2 _ h) rfl
  obtain ⟨fs, f, e1, e2⟩ := parseCSVLineLoop_suffix (trim line) w2 [] [] false q2 c2
  obtain ⟨g, gs, e3, e4⟩ := parseCSVLineLoop_current (trim line ++ w2) w1 [] false
  have e5 : parseCSVLine line = (w1 ++ g) :: gs := by
    rw [parseCSVLine_eq_loop]
    conv_lhs => rw [e]
    rw [parseCSVLineLoop_plain w1 _ _ _ _ q1 c1]
    simpa using e4
  rw [e5, parseCSVLine_eq_loop, e1]
  have e6 : (List.map trim ((w1 ++ g) :: gs)) = List.map trim (g :: gs) := by
    simp [trim_append_left _ _ h1]
  rw [e6, ← e3, e2]
  simp [trim_append_right _ _ h2]

/-! ## Rows built by `parseCSV` -/

theorem map_snd_filter_enumFrom (k : Str) (hs : List Str) (n : Nat) :
    ((hs.enumFrom n).filter (fun p => decide (p.2 ≠ k))).map Prod.snd
      = hs.filter (fun h => decide (h ≠ k)) := by
  induction hs generalizing n with
  | nil => rfl
  | cons h rest ih =>
    by_cases hk : h = k
    · simpa [List.enumFrom_cons, List.filter_cons, hk] using ih (n + 1)
    · simpa [List.enumFrom_cons, List.filter_cons, hk] using ih (n + 1)

theorem buildRow_fold (values : List Str) (hs : List Str) (n : Nat) (acc : Obj)
    (hnd : hs.Nodup) (hdis : ∀ h ∈ hs, h ∉ acc.keys) :
    (hs.enumFrom n).foldl
        (fun row (p : Nat × Str) =>
          if p.2 = protoKey then row
          else row.set p.2 (trim (if p.1 < values.length then values.getD p.1 [] else []))) acc
      = acc ++ ((hs.enumFrom n).filter (fun p => decide (p.2 ≠ protoKey))).map
          (fun p => (p.2, trim (if p.1 < values.length then values.getD p.1 [] else []))) := by
  induction hs generalizing n acc with
  | nil => simp
  | cons h rest ih =>
    simp only [List.enumFrom_cons, List.foldl_cons]
    by_cases hk : h = protoKey
    · simp only [hk, if_true]
      rw [ih (n + 1) acc (List.nodup_cons.mp hnd).2
        (fun x hx => hdis x (List.mem_cons_of_mem _ hx))]
      simp [List.filter_cons]
    · simp only [hk, if_false]
      rw [Obj.set_of_not_mem_keys _ _ _ (hdis h (by simp))]
      rw [ih (n + 1) _ (List.nodup_cons.mp hnd).2]
      · simp [List.filter_cons, hk]
      · intro x hx hkey
        simp only [Obj.keys, List.map_append, List.map_cons, List.map_nil, List.mem_append,
          List.mem_singleton] at hkey
        rcases hkey with hkey | hkey
        · exact hdis x (List.mem_cons_of_mem _ hx) hkey
        · exact (List.nodup_cons.mp hnd).1 (hkey ▸ hx)

theorem buildRow_eq_map (headers values : List Str) (hnd : headers.Nodup) :
    buildRow headers values
      = (headers.enum.filter (fun p => decide (p.2 ≠ protoKey))).map
          (fun p => (p.2, trim (if p.1 < values.length then values.getD p.1 [] else []))) := by
  have h := buildRow_fold values headers 0 [] hnd (by simp [Obj.keys])
  simpa only [buildRow, List.enum, List.nil_append] using h

theorem buildRow_keys (headers values : List Str) (hnd : headers.Nodup) :
    (buildRow headers values).keys = headers.filter (fun h => decide (h ≠ protoKey)) := by
  rw [buildRow_eq_map _ _ hnd]
  simp only [Obj.keys, List.map_map]
  exact map_snd_filter_enumFrom protoKey headers 0

theorem buildRow_get (headers values : List Str) (hnd : headers.Nodup) (i : Nat)
    (hi : i < headers.length) (hp : headers.getD i [] ≠ protoKey) :
    (buildRow headers values).get (headers.getD i [])
      = some (if i < values.length then trim (values.getD i []) else []) := by
  apply Obj.get_eq_some_of_mem
  · rw [Obj.WF, buildRow_keys _ _ hnd]
    exact List.Nodup.filter _ hnd
  · rw [buildRow_eq_map _ _ hnd]
    have hm : (i, headers.getD i []) ∈ headers.enum := by
      rw [List.mk_mem_enum_iff_getElem?]
      simp [List.getD, List.getElem?_eq_getElem hi]
    have hm2 : (i, headers.getD i [])
        ∈ headers.enum.filter (fun p => decide (p.2 ≠ protoKey)) :=
      List.mem_filter.mpr ⟨hm, decide_eq_true hp⟩
    have := List.mem_map_of_mem
      (fun p : Nat × Str => (p.2, trim (if p.1 < values.length then values.getD p.1 [] else [])))
      hm2
    by_cases hv : i < values.length
    · simpa [hv] using this
    · simpa [hv, trim_nil] using this

theorem buildRow_get_protoKey (headers values : List Str) (hnd : headers.Nodup) :
    (buildRow headers values).get protoKey = none := by
  apply Obj.get_eq_none_of_not_mem
  rw [buildRow_keys _ _ hnd]
  intro h
  have := (List.mem_filter.mp h).2
  simp at this

theorem parseCSV_fold (headers : List Str) (ls : List Str) (rows : List Obj) :
    ls.foldl (parseCSVStep headers) rows
      = rows ++ (ls.filter (fun l => decide (trim l ≠ []))).map
          (fun l => buildRow headers (parseCSVLine (trim l))) := by
  induction ls generalizing rows with
  | nil => simp
  | cons l rest ih =>
    by_cases h : trim l ≠ []
    · simp [parseCSVStep, h, ih]
    · simp [parseCSVStep, h, ih]

/-- C2, as the claim states it, fails: the headers `__proto__`, `A` are distinct, and the
row built for the data line `x,y` has the single key `A`; it holds nothing under
`__proto__`, where the claim puts `x`. -/
theorem parseCSV_proto_header :
    parseCSVLine ((splitOnChar '\n' "__proto__,A\nx,y".toList).headD [])
        = ["__proto__".toList, "A".toList] ∧
      (["__proto__".toList, "A".toList] : List Str).Nodup ∧
      parseCSV "__proto__,A\nx,y".toList = [[("A".toList, "y".toList)]] ∧
      ((parseCSV "__proto__,A\nx,y".toList).getD 0 []).get "__proto__".toList = none := by
  refine ⟨by decide, by decide, by decide, by decide⟩

/-- C2, amended: when the first line parses to distinct headers, `parseCSV` returns one
row per non-blank data line, and the row of a data line whose `parseCSVLine` result is
`values` has exactly the headers other than `__proto__` as keys and maps every such header
at index `i` to the trimmed value at index `i`, or to the empty string when the line has no
value at that index; values past the last header are ignored, and a header `__proto__`
gets no key. -/
theorem parseCSV_row_zip (csvContent : Str)
    (hd : (parseCSVLine ((splitOnChar '\n' csvContent).headD [])).Nodup) :
    parseCSV csvContent
      = (((splitOnChar '\n' csvContent).drop 1).filter (fun l => decide (trim l ≠ []))).map
          (fun l => buildRow (parseCSVLine ((splitOnChar '\n' csvContent).headD []))
            (parseCSVLine (trim l))) ∧
    ∀ line : Str,
      (buildRow (parseCSVLine ((splitOnChar '\n' csvContent).headD []))
          (parseCSVLine (trim line))).keys
        = (parseCSVLine ((splitOnChar '\n' csvContent).headD [])).filter
            (fun h => decide (h ≠ protoKey)) ∧
      (buildRow (parseCSVLine ((splitOnChar '\n' csvContent).headD []))
          (parseCSVLine (trim line))).get protoKey = none ∧
      ∀ i, i < (parseCSVLine ((splitOnChar '\n' csvContent).headD [])).length →
        (parseCSVLine ((splitOnChar '\n' csvContent).headD [])).getD i [] ≠ protoKey →
        (buildRow (parseCSVLine ((splitOnChar '\n' csvContent).headD []))
            (parseCSVLine (trim line))).get
            ((parseCSVLine ((splitOnChar '\n' csvContent).headD [])).getD i [])
          = some (if i < (parseCSVLine line).length then trim ((parseCSVLine line).getD i [])
              else []) := by
  refine ⟨?_, ?_⟩
  · simp only [parseCSV]
    rw [parseCSV_fold]
    simp
  · intro line
    refine ⟨buildRow_keys _ _ hd, buildRow_get_protoKey _ _ hd, ?_⟩
    intro i hi hp
    rw [buildRow_get _ _ hd i hi hp]
    have h := map_trim_parseCSVLine_trim line
    have hlen : (parseCSVLine (trim line)).length = (parseCSVLine line).length := by
      simpa using congrArg List.length h
    have hget := congrArg (fun l => l.getD i []) h
    simp only [List.getD_eq_getElem?_getD, List.getElem?_map] at hget
    by_cases hv : i < (parseCSVLine line).length
    · have hv2 : i < (parseCSVLine (trim line)).length := hlen ▸ hv
      simp only [hv, hv2, if_true, List.getD_eq_getElem?_getD]
      simp only [List.getElem?_eq_getElem hv, List.getElem?_eq_getElem hv2, Option.map_some,
        Option.getD_some] at hget ⊢
      exact congrArg some (by simpa using hget)
    · have hv2 : ¬ i < (parseCSVLine (trim line)).length := hlen ▸ hv
      simp [hv, hv2]

theorem parseCSV_row_zip_witness :
    parseCSV "H1,H2,H3\nx,y".toList
      = [[("H1".toList, "x".toList), ("H2".toList, "y".toList), ("H3".toList, [])]] :=
  ((parseCSV_row_zip "H1,H2,H3\nx,y".toList (by decide)).1).trans (by decide)

/-! ## Frame facts of the helpers -/

@[simp] theorem showToast_fieldMapping (s : State) (t m v : Str) :
    (showToast s t m v).fieldMapping = s.fieldMapping := rfl

@[simp] theorem showToast_csvHeaders (s : State) (t m v : Str) :
    (showToast s t m v).csvHeaders = s.csvHeaders := rfl

@[simp] theorem showToast_currentStep (s : State) (t m v : Str) :
    (showToast s t m v).currentStep = s.currentStep := rfl

@[simp] theorem showToast_executorCalls (s : State) (t m v : Str) :
    (showToast s t m v).executorCalls = s.executorCalls := rfl

@[simp] theorem updateFieldMappingItems_fieldMapping (s : State) :
    (updateFieldMappingItems s).fieldMapping = s.fieldMapping := by
  unfold updateFieldMappingItems
  split <;> rfl

@[simp] theorem updateFieldMappingItems_csvHeaders (s : State) :
    (updateFieldMappingItems s).csvHeaders = s.csvHeaders := by
  unfold updateFieldMappingItems
  split <;> rfl

@[simp] theorem updateFieldMappingItems_availableFields (s : State) :
    (updateFieldMappingItems s).availableFields = s.availableFields := by
  unfold updateFieldMappingItems
  split <;> rfl

/-! ## Values of the mapping stay among the headers -/

theorem values_delete_subset (o : Obj) (k x : Str) (h : x ∈ (o.delete k).values) : x ∈ o.values := by
  simp only [Obj.values, Obj.delete, List.mem_map] at h ⊢
  obtain ⟨e, he, hx⟩ := h
  exact ⟨e, (List.mem_filter.mp he).1, hx⟩

theorem fuzzyMatch_values (lower : Str → Str) (csvHeaders : List Str) (newMapping : Obj)
    (field : Field) (x : Str) (hx : x ∈ (fuzzyMatch lower csvHeaders newMapping field).values) :
    (x ∈ csvHeaders ∧ x ≠ []) ∨ x ∈ newMapping.values := by
  unfold fuzzyMatch at hx
  simp only at hx
  split at hx
  · split at hx
    · rename_i h
      rcases Obj.values_set_subset _ _ _ _ hx with h1 | h1
      · exact Or.inl ⟨h1 ▸ h.2.2, h1 ▸ h.2.1⟩
      · exact Or.inr h1
    · exact Or.inr hx
  · exact Or.inr hx

theorem autoMatchField_values (lower : Str → Str) (directMappings : AliasTable)
    (csvHeaders : List Str) (newMapping : Obj) (field : Field) (x : Str)
    (hx : x ∈ (autoMatchField lower directMappings csvHeaders newMapping field).values) :
    (x ∈ csvHeaders ∧ x ≠ []) ∨ x ∈ newMapping.values := by
  unfold autoMatchField at hx
  split at hx
  · simp only at hx
    split at hx
    · split at hx
      · rename_i h
        rcases Obj.values_set_subset _ _ _ _ hx with h1 | h1
        · exact Or.inl ⟨h1 ▸ h, by simp [h1]⟩
        · exact Or.inr h1
      · exact Or.inr hx
    · exact fuzzyMatch_values lower _ _ _ _ hx
  · exact fuzzyMatch_values lower _ _ _ _ hx

theorem autoMatchFold_values (lower : Str → Str) (directMappings : AliasTable)
    (csvHeaders : List Str) (fields : List Field) (acc : Obj)
    (hacc : ∀ x ∈ acc.values, x ∈ csvHeaders ∧ x ≠ []) :
    ∀ x ∈ (fields.foldl (autoMatchField lower directMappings csvHeaders) acc).values,
      x ∈ csvHeaders ∧ x ≠ [] := by
  induction fields generalizing acc with
  | nil => simpa using hacc
  | cons f rest ih =>
    simp only [List.foldl_cons]
    apply ih
    intro x hx
    rcases autoMatchField_values lower _ _ _ _ _ hx with h | h
    · exact h
    · exact hacc x h

theorem autoMatchLoop_values (lower : Str → Str) (directMappings : AliasTable)
    (fields : List Field) (csvHeaders : List Str) :
    ∀ x ∈ (autoMatchLoop lower directMappings fields csvHeaders).values,
      x ∈ csvHeaders ∧ x ≠ [] :=
  autoMatchFold_values lower directMappings csvHeaders fields [] (by simp [Obj.values])

theorem handleAutoMatch_inv (lower : Str → Str) (s : State)
    (h : ∀ v ∈ s.fieldMapping.values, v ∈ s.csvHeaders) :
    ∀ v ∈ (handleAutoMatch lower s).fieldMapping.values, v ∈ (handleAutoMatch lower s).csvHeaders := by
  unfold handleAutoMatch
  split
  · simpa using h
  · simp only [showToast_fieldMapping, showToast_csvHeaders, updateFieldMappingItems_fieldMapping,
      updateFieldMappingItems_csvHeaders]
    intro v hv
    exact (autoMatchLoop_values lower _ _ _ v hv).1

theorem readerOnload_inv (s : State) (result : Str)
    (h : ∀ v ∈ s.fieldMapping.values, v ∈ s.csvHeaders) :
    ∀ v ∈ (readerOnload s result).fieldMapping.values, v ∈ (readerOnload s result).csvHeaders := by
  unfold readerOnload
  simp only
  split
  · simpa using h
  · split
    · simp [Obj.values]
    · simpa using h

theorem handleFileUploadStart_inv (s : State) (file : File)
    (h : ∀ v ∈ s.fieldMapping.values, v ∈ s.csvHeaders) :
    ∀ v ∈ (handleFileUploadStart s file).fieldMapping.values,
      v ∈ (handleFileUploadStart s file).csvHeaders := by
  unfold handleFileUploadStart
  split
  · simpa using h
  · split
    · simpa using h
    · simpa using h

theorem applyDraftValue_inv (s : State) (d : DraftValue)
    (h : ∀ v ∈ s.fieldMapping.values, v ∈ s.csvHeaders) :
    ∀ v ∈ (applyDraftValue s d).fieldMapping.values, v ∈ (applyDraftValue s d).csvHeaders := by
  unfold applyDraftValue
  simp only
  split
  · intro v hv
    exact h v (values_delete_subset _ _ _ hv)
  · split
    · intro v hv
      exact h v (values_delete_subset _ _ _ hv)
    · split
      · rename_i hmem
        intro v hv
        rcases Obj.values_set_subset _ _ _ _ hv with h1 | h1
        · exact h1 ▸ hmem
        · exact h v h1
      · simpa using h

theorem applyDraftValues_inv (ds : List DraftValue) (s : State)
    (h : ∀ v ∈ s.fieldMapping.values, v ∈ s.csvHeaders) :
    ∀ v ∈ (ds.foldl applyDraftValue s).fieldMapping.values,
      v ∈ (ds.foldl applyDraftValue s).csvHeaders := by
  induction ds generalizing s with
  | nil => simpa using h
  | cons d rest ih => exact ih _ (applyDraftValue_inv s d h)

theorem processRecordImport_frame (s : State) :
    (processRecordImport s).fieldMapping = s.fieldMapping ∧
      (processRecordImport s).csvHeaders = s.csvHeaders := by
  unfold processRecordImport
  simp only
  split
  · exact ⟨rfl, rfl⟩
  · split
    · exact ⟨rfl, rfl⟩
    · exact ⟨rfl, rfl⟩

theorem step_inv (lower : Str → Str) (s : State) (a : Action)
    (h : ∀ v ∈ s.fieldMapping.values, v ∈ s.csvHeaders) :
    ∀ v ∈ (step lower s a).fieldMapping.values, v ∈ (step lower s a).csvHeaders := by
  cases a with
  | fileUpload file =>
    simp only [step, handleFileUpload]
    split
    · exact readerOnload_inv _ _ (handleFileUploadStart_inv s file h)
    · exact handleFileUploadStart_inv s file h
  | fileSelected file => exact handleFileUploadStart_inv s file h
  | readerLoaded result => exact readerOnload_inv s result h
  | next =>
    simp only [step, handleNext]
    split
    · have h1 := handleAutoMatch_inv lower { s with showPreviousButton := true } h
      split
      · simpa using h1
      · simpa [loadAvailableFields] using h1
    · split
      · have hf := processRecordImport_frame { s with currentStep := Step.processing }
        rw [hf.1, hf.2]
        exact h
      · exact h
  | previous =>
    simp only [step, handlePrevious]
    split
    · exact h
    · split
      · exact h
      · split <;> exact h
  | finish => exact h
  | mappingAction actionName row =>
    simp only [step, handleMappingAction]
    split
    · simp only [showToast_fieldMapping, showToast_csvHeaders,
        updateFieldMappingItems_fieldMapping, updateFieldMappingItems_csvHeaders]
      intro v hv
      exact h v (values_delete_subset _ _ _ hv)
    · exact h
  | cellChange draftValues =>
    simp only [step, handleCellChange]
    split
    · exact h
    · exact h
    · simp only [showToast_fieldMapping, showToast_csvHeaders,
        updateFieldMappingItems_fieldMapping, updateFieldMappingItems_csvHeaders]
      exact applyDraftValues_inv _ s h
  | autoMatch => exact handleAutoMatch_inv lower s h
  | reloadFields => exact h
  | fieldsLoaded result => exact h
  | defaultMappingLoaded result =>
    simp [step, defaultFieldMappingLoaded, Obj.values]
  | fieldsFailed errorMessage => exact h
  | aliasesLoaded result => exact h
  | importSettled outcome =>
    simp only [step, processRecordImportSettled]
    split
    · split <;> exact h
    · exact h

/-- C4: in every state reachable from the initial state by file uploads, cell edits,
clear-selection actions, auto-match runs, field reloads, wizard navigation and the
callbacks of pending requests, every value stored in `fieldMapping` is one of the current
`csvHeaders`. -/
theorem reachable_mapping_values_in_headers (lower : Str → Str) (s : State)
    (h : Reachable lower s) : ∀ v ∈ s.fieldMapping.values, v ∈ s.csvHeaders := by
  induction h with
  | init => simp [State.init, Obj.values]
  | step s a _ ih => exact step_inv lower s a ih

theorem reachable_mapping_values_in_headers_witness :
    Reachable asciiLower sampleSession ∧
      "Name".toList ∈ sampleSession.fieldMapping.values ∧
      "Name".toList ∈ sampleSession.csvHeaders :=
  have hr : Reachable asciiLower sampleSession :=
    Reachable.step _ _ (Reachable.step _ _ (Reachable.step _ _ (Reachable.init [] [] none [] [])))
  have hv : "Name".toList ∈ sampleSession.fieldMapping.values := by decide!
  ⟨hr, hv, reachable_mapping_values_in_headers asciiLower sampleSession hr "Name".toList hv⟩

/-! ## The fuzzy pass -/

theorem fuzzyFold_spec (lower : Str → Str) (newMapping : Obj) (apiName : Str) (hs : List Str)
    (best : Option Str × ℚ) :
    (∀ h ∈ hs, h ∉ newMapping.values →
        similarity lower h apiName ≤ (hs.foldl (fuzzyStep lower newMapping apiName) best).2) ∧
      best.2 ≤ (hs.foldl (fuzzyStep lower newMapping apiName) best).2 ∧
      (hs.foldl (fuzzyStep lower newMapping apiName) best = best ∨
        ∃ h ∈ hs, h ∉ newMapping.values ∧ best.2 < similarity lower h apiName ∧
          hs.foldl (fuzzyStep lower newMapping apiName) best
            = (some h, similarity lower h apiName)) := by
  induction hs generalizing best with
  | nil => simp
  | cons x rest ih =>
    simp only [List.foldl_cons]
    obtain ⟨i1, i2, i3⟩ := ih (fuzzyStep lower newMapping apiName best x)
    have hstep : best.2 ≤ (fuzzyStep lower newMapping apiName best x).2 ∧
        (x ∉ newMapping.values →
          similarity lower x apiName ≤ (fuzzyStep lower newMapping apiName best x).2) ∧
        (fuzzyStep lower newMapping apiName best x = best ∨
          (x ∉ newMapping.values ∧ best.2 < similarity lower x apiName ∧
            fuzzyStep lower newMapping apiName best x = (some x, similarity lower x apiName))) := by
      by_cases hc : x ∈ newMapping.values
      · have e : fuzzyStep lower newMapping apiName best x = best := by simp [fuzzyStep, hc]
        rw [e]
        exact ⟨le_refl _, fun hn => absurd hc hn, Or.inl rfl⟩
      · by_cases hgt : similarity lower x apiName > best.2
        · have e : fuzzyStep lower newMapping apiName best x
              = (some x, similarity lower x apiName) := by simp [fuzzyStep, hc, hgt]
          rw [e]
          exact ⟨le_of_lt hgt, fun _ => le_refl _, Or.inr ⟨hc, hgt, rfl⟩⟩
        · have e : fuzzyStep lower newMapping apiName best x = best := by
            simp only [fuzzyStep, hc, if_false, hgt]
          rw [e]
          exact ⟨le_refl _, fun _ => not_lt.mp hgt, Or.inl rfl⟩
    obtain ⟨s1, s2, s3⟩ := hstep
    refine ⟨?_, le_trans s1 i2, ?_⟩
    · intro h hh hu
      rcases List.mem_cons.mp hh with e | e
      · exact le_trans (e ▸ s2 (e ▸ hu)) i2
      · exact i1 h e hu
    · rcases i3 with e | ⟨h, hh, hu, hlt, e⟩
      · rcases s3 with e2 | ⟨hu, hlt, e2⟩
        · exact Or.inl (e.trans e2)
        · exact Or.inr ⟨x, by simp, hu, hlt, e.trans e2⟩
      · exact Or.inr ⟨h, List.mem_cons_of_mem _ hh, hu, lt_of_le_of_lt s1 hlt, e⟩

/-- What the fuzzy pass returns: no header, or an unclaimed header whose score is positive
and is the greatest score of an unclaimed header. -/
theorem fuzzyPass_spec (lower : Str → Str) (csvHeaders : List Str) (newMapping : Obj)
    (apiName : Str) :
    (∀ h ∈ csvHeaders, h ∉ newMapping.values →
        similarity lower h apiName ≤ (fuzzyPass lower csvHeaders newMapping apiName).2) ∧
      (fuzzyPass lower csvHeaders newMapping apiName = (none, 0) ∨
        ∃ h ∈ csvHeaders, h ∉ newMapping.values ∧ 0 < similarity lower h apiName ∧
          fuzzyPass lower csvHeaders newMapping apiName = (some h, similarity lower h apiName)) := by
  obtain ⟨h1, _, h3⟩ := fuzzyFold_spec lower newMapping apiName csvHeaders (none, 0)
  exact ⟨h1, h3⟩

theorem fuzzyMatch_get_of_ne (lower : Str → Str) (csvHeaders : List Str) (newMapping : Obj)
    (field : Field) (k : Str) (hk : k ≠ field.apiName) :
    (fuzzyMatch lower csvHeaders newMapping field).get k = newMapping.get k := by
  unfold fuzzyMatch
  simp only
  split
  · split
    · exact Obj.get_set_of_ne _ _ _ _ hk
    · rfl
  · rfl

/-- The entry the fuzzy pass leaves for the field it handles, when the field has no entry
yet. -/
theorem fuzzyMatch_get_self (lower : Str → Str) (csvHeaders : List Str) (newMapping : Obj)
    (field : Field) (hnew : newMapping.get field.apiName = none) (h : Str) :
    (fuzzyMatch lower csvHeaders newMapping field).get field.apiName = some h ↔
      (fuzzyPass lower csvHeaders newMapping field.apiName).1 = some h ∧
        1 / 2 ≤ (fuzzyPass lower csvHeaders newMapping field.apiName).2 ∧ h ≠ [] ∧
        h ∈ csvHeaders := by
  unfold fuzzyMatch
  simp only
  split
  · rename_i bestMatch hb
    split
    · rename_i hc
      rw [Obj.get_set_self, hb]
      constructor
      · intro e
        have e2 : bestMatch = h := Option.some.inj e
        subst e2
        exact ⟨rfl, hc.1, hc.2.1, hc.2.2⟩
      · intro e
        exact e.1
    · rename_i hc
      rw [hnew, hb]
      constructor
      · intro e
        exact absurd e (by simp)
      · intro e
        have e2 : bestMatch = h := Option.some.inj e.1
        subst e2
        exact absurd ⟨e.2.1, e.2.2.1, e.2.2.2⟩ hc
  · rename_i hb
    rw [hnew, hb]
    constructor
    · intro e
      exact absurd e (by simp)
    · intro e
      exact absurd e.1 (by simp)

theorem mem_set (o : Obj) (k v : Str) (e : Str × Str) (h : e ∈ o.set k v) :
    e = (k, v) ∨ e ∈ o := by
  induction o with
  | nil => simp [Obj.set] at h; exact Or.inl h
  | cons x rest ih =>
    by_cases hx : x.1 = k
    · simp only [Obj.set, hx, if_true, List.mem_cons] at h
      rcases h with h | h
      · exact Or.inl h
      · exact Or.inr (List.mem_cons_of_mem _ h)
    · simp only [Obj.set, hx, if_false, List.mem_cons] at h
      rcases h with h | h
      · exact Or.inr (by simp [h])
      · rcases ih h with h2 | h2
        · exact Or.inl h2
        · exact Or.inr (List.mem_cons_of_mem _ h2)

theorem keys_set_subset (o : Obj) (k v x : Str) (h : x ∈ (o.set k v).keys) :
    x = k ∨ x ∈ o.keys := by
  simp only [Obj.keys, List.mem_map] at h ⊢
  obtain ⟨e, he, hx⟩ := h
  rcases mem_set o k v e he with h1 | h1
  · exact Or.inl (by rw [← hx, h1])
  · exact Or.inr ⟨e, h1, hx⟩

/-! ## The loop of the auto-match over the target fields -/

theorem autoMatchField_nil (lower : Str → Str) (csvHeaders : List Str) (newMapping : Obj)
    (field : Field) :
    autoMatchField lower [] csvHeaders newMapping field
      = fuzzyMatch lower csvHeaders newMapping field := by
  simp [autoMatchField, AliasTable.get]

theorem handleAutoMatch_fieldMapping (lower : Str → Str) (s : State) (hh : s.csvHeaders ≠ []) :
    (handleAutoMatch lower s).fieldMapping
      = autoMatchLoop lower [] s.availableFields s.csvHeaders := by
  have h0 : ¬ s.csvHeaders.length = 0 := by simpa using hh
  simp [handleAutoMatch, h0]

theorem autoMatchField_get_of_ne (lower : Str → Str) (directMappings : AliasTable)
    (csvHeaders : List Str) (newMapping : Obj) (field : Field) (k : Str)
    (hk : k ≠ field.apiName) :
    (autoMatchField lower directMappings csvHeaders newMapping field).get k = newMapping.get k := by
  unfold autoMatchField
  split
  · simp only
    split
    · split
      · exact Obj.get_set_of_ne _ _ _ _ hk
      · rfl
    · exact fuzzyMatch_get_of_ne lower _ _ _ _ hk
  · exact fuzzyMatch_get_of_ne lower _ _ _ _ hk

theorem autoMatchFold_get_of_ne (lower : Str → Str) (directMappings : AliasTable)
    (csvHeaders : List Str) (fields : List Field) (acc : Obj) (k : Str)
    (hk : ∀ g ∈ fields, k ≠ g.apiName) :
    (fields.foldl (autoMatchField lower directMappings csvHeaders) acc).get k = acc.get k := by
  induction fields generalizing acc with
  | nil => rfl
  | cons f rest ih =>
    simp only [List.foldl_cons]
    rw [ih _ (fun g hg => hk g (List.mem_cons_of_mem _ hg))]
    exact autoMatchField_get_of_ne lower _ _ _ _ _ (hk f (by simp))

theorem fuzzyMatch_keys (lower : Str → Str) (csvHeaders : List Str) (newMapping : Obj)
    (field : Field) (x : Str) (hx : x ∈ (fuzzyMatch lower csvHeaders newMapping field).keys) :
    x = field.apiName ∨ x ∈ newMapping.keys := by
  unfold fuzzyMatch at hx
  simp only at hx
  split at hx
  · split at hx
    · exact keys_set_subset _ _ _ _ hx
    · exact Or.inr hx
  · exact Or.inr hx

theorem fuzzyMatch_wf (lower : Str → Str) (csvHeaders : List Str) (newMapping : Obj)
    (field : Field) (h : newMapping.WF) : (fuzzyMatch lower csvHeaders newMapping field).WF := by
  unfold fuzzyMatch
  simp only
  split
  · split
    · exact Obj.wf_set _ _ _ h
    · exact h
  · exact h

theorem fuzzyFold_keys (lower : Str → Str) (csvHeaders : List Str) (fields : List Field)
    (acc : Obj) :
    ∀ x ∈ (fields.foldl (autoMatchField lower [] csvHeaders) acc).keys,
      x ∈ acc.keys ∨ ∃ g ∈ fields, g.apiName = x := by
  induction fields generalizing acc with
  | nil => intro x hx; exact Or.inl hx
  | cons f rest ih =>
    intro x hx
    simp only [List.foldl_cons, autoMatchField_nil] at hx
    rcases ih _ x hx with h | ⟨g, hg, e⟩
    · rcases fuzzyMatch_keys lower _ _ _ _ h with h1 | h1
      · exact Or.inr ⟨f, by simp, h1.symm⟩
      · exact Or.inl h1
    · exact Or.inr ⟨g, List.mem_cons_of_mem _ hg, e⟩

theorem fuzzyFold_wf (lower : Str → Str) (csvHeaders : List Str) (fields : List Field)
    (acc : Obj) (h : acc.WF) : (fields.foldl (autoMatchField lower [] csvHeaders) acc).WF := by
  induction fields generalizing acc with
  | nil => exact h
  | cons f rest ih =>
    simp only [List.foldl_cons, autoMatchField_nil]
    exact ih _ (fuzzyMatch_wf lower _ _ _ h)

theorem fuzzyMatch_injective (lower : Str → Str) (csvHeaders : List Str) (newMapping : Obj)
    (field : Field)
    (h : ∀ k1 k2 v, (k1, v) ∈ newMapping → (k2, v) ∈ newMapping → k1 = k2) :
    ∀ k1 k2 v, (k1, v) ∈ fuzzyMatch lower csvHeaders newMapping field →
      (k2, v) ∈ fuzzyMatch lower csvHeaders newMapping field → k1 = k2 := by
  unfold fuzzyMatch
  simp only
  split
  · rename_i bestMatch hb
    split
    · have hun : bestMatch ∉ newMapping.values := by
        rcases (fuzzyPass_spec lower csvHeaders newMapping field.apiName).2 with e | ⟨x, _, hu, _, e⟩
        · rw [e] at hb; exact absurd hb (by simp)
        · rw [e] at hb
          have : x = bestMatch := Option.some.inj hb
          exact this ▸ hu
      intro k1 k2 v h1 h2
      rcases mem_set _ _ _ _ h1 with e1 | e1 <;> rcases mem_set _ _ _ _ h2 with e2 | e2
      · rw [(Prod.mk.inj e1).1, (Prod.mk.inj e2).1]
      · exact absurd (Obj.mem_values_of_mem _ _ _ ((Prod.mk.inj e1).2 ▸ e2)) hun
      · exact absurd (Obj.mem_values_of_mem _ _ _ ((Prod.mk.inj e2).2 ▸ e1)) hun
      · exact h k1 k2 v e1 e2
    · exact h
  · exact h

theorem fuzzyFold_injective (lower : Str → Str) (csvHeaders : List Str) (fields : List Field)
    (acc : Obj) (h : ∀ k1 k2 v, (k1, v) ∈ acc → (k2, v) ∈ acc → k1 = k2) :
    ∀ k1 k2 v, (k1, v) ∈ fields.foldl (autoMatchField lower [] csvHeaders) acc →
      (k2, v) ∈ fields.foldl (autoMatchField lower [] csvHeaders) acc → k1 = k2 := by
  induction fields generalizing acc with
  | nil => exact h
  | cons f rest ih =>
    simp only [List.foldl_cons, autoMatchField_nil]
    exact ih _ (fuzzyMatch_injective lower _ _ _ h)

/-- The headers claimed when a field is reached are the headers the final mapping gives
to the fields before it. -/
theorem claimed_iff (lower : Str → Str) (csvHeaders : List Str) (pre rest : List Field)
    (hd : ((pre ++ rest).map Field.apiName).Nodup) (x : Str) :
    x ∈ (autoMatchLoop lower [] pre csvHeaders).values ↔
      ∃ g ∈ pre, (autoMatchLoop lower [] (pre ++ rest) csvHeaders).get g.apiName = some x := by
  have hsplit : autoMatchLoop lower [] (pre ++ rest) csvHeaders
      = rest.foldl (autoMatchField lower [] csvHeaders) (autoMatchLoop lower [] pre csvHeaders) := by
    simp [autoMatchLoop, List.foldl_append]
  have hne : ∀ g ∈ pre, ∀ r ∈ rest, g.apiName ≠ r.apiName := by
    intro g hg r hr e
    rw [List.map_append] at hd
    exact (List.nodup_append.mp hd).2.2 (List.mem_map_of_mem _ hg) (e ▸ List.mem_map_of_mem _ hr)
  have hwf : (autoMatchLoop lower [] pre csvHeaders).WF :=
    fuzzyFold_wf lower csvHeaders pre [] (by simp [Obj.WF, Obj.keys])
  constructor
  · intro hx
    obtain ⟨e, he, hx2⟩ := List.mem_map.mp hx
    have hk : e.1 ∈ (autoMatchLoop lower [] pre csvHeaders).keys := List.mem_map_of_mem _ he
    rcases fuzzyFold_keys lower csvHeaders pre [] e.1 hk with h0 | ⟨g, hg, hge⟩
    · simp [Obj.keys] at h0
    · refine ⟨g, hg, ?_⟩
      rw [hsplit, autoMatchFold_get_of_ne lower _ _ _ _ _ (fun r hr => hne g hg r hr)]
      rw [hge]
      exact Obj.get_eq_some_of_mem _ _ _ hwf (by rw [← hx2]; exact he)
  · rintro ⟨g, hg, hget⟩
    rw [hsplit, autoMatchFold_get_of_ne lower _ _ _ _ _ (fun r hr => hne g hg r hr)] at hget
    exact Obj.mem_values_of_mem _ _ _ (Obj.mem_of_get_eq_some _ _ _ hget)

/-- The entry of a field in the final mapping is the decision of the fuzzy pass at the
turn of that field. -/
theorem autoMatchLoop_get (lower : Str → Str) (csvHeaders : List Str) (pre post : List Field)
    (f : Field) (hd : ((pre ++ f :: post).map Field.apiName).Nodup) (h : Str) :
    (autoMatchLoop lower [] (pre ++ f :: post) csvHeaders).get f.apiName = some h ↔
      (fuzzyPass lower csvHeaders (autoMatchLoop lower [] pre csvHeaders) f.apiName).1 = some h ∧
        1 / 2 ≤ (fuzzyPass lower csvHeaders (autoMatchLoop lower [] pre csvHeaders) f.apiName).2 ∧
        h ≠ [] ∧ h ∈ csvHeaders := by
  have hsplit : autoMatchLoop lower [] (pre ++ f :: post) csvHeaders
      = post.foldl (autoMatchField lower [] csvHeaders)
          (fuzzyMatch lower csvHeaders (autoMatchLoop lower [] pre csvHeaders) f) := by
    simp [autoMatchLoop, List.foldl_append, autoMatchField_nil]
  rw [List.map_append, List.map_cons] at hd
  have hd2 := List.nodup_append.mp hd
  have hpost : ∀ g ∈ post, f.apiName ≠ g.apiName := by
    intro g hg e
    exact (List.nodup_cons.mp hd2.2.1).1 (e ▸ List.mem_map_of_mem _ hg)
  have hpre : f.apiName ∉ (autoMatchLoop lower [] pre csvHeaders).keys := by
    intro hk
    rcases fuzzyFold_keys lower csvHeaders pre [] _ hk with h0 | ⟨g, hg, hge⟩
    · simp [Obj.keys] at h0
    · exact hd2.2.2 (List.mem_map_of_mem _ hg) (by simp [hge])
  rw [hsplit, autoMatchFold_get_of_ne lower _ _ _ _ _ hpost]
  exact fuzzyMatch_get_self lower _ _ _ (Obj.get_eq_none_of_not_mem _ _ hpre) h

/-- The result of the fuzzy pass when the header list is split at a header that is not
claimed, scores above every unclaimed header before it and at least as much as every
unclaimed header after it. -/
theorem fuzzyPass_of_split (lower : Str → Str) (newMapping : Obj) (apiName : Str)
    (before after : List Str) (h : Str) (hu : h ∉ newMapping.values)
    (hpos : 0 < similarity lower h apiName)
    (hb : ∀ h2 ∈ before, h2 ∉ newMapping.values →
      similarity lower h2 apiName < similarity lower h apiName)
    (ha : ∀ h2 ∈ after, h2 ∉ newMapping.values →
      similarity lower h2 apiName ≤ similarity lower h apiName) :
    fuzzyPass lower (before ++ h :: after) newMapping apiName
      = (some h, similarity lower h apiName) := by
  unfold fuzzyPass
  rw [List.foldl_append, List.foldl_cons]
  have hlt : (before.foldl (fuzzyStep lower newMapping apiName) (none, 0)).2
      < similarity lower h apiName := by
    rcases (fuzzyFold_spec lower newMapping apiName before (none, 0)).2.2 with e | ⟨x, hx, hxu, _, e⟩
    · rw [e]
      exact hpos
    · rw [e]
      exact hb x hx hxu
  have hstep : fuzzyStep lower newMapping apiName
      (before.foldl (fuzzyStep lower newMapping apiName) (none, 0)) h
      = (some h, similarity lower h apiName) := by
    simp only [fuzzyStep, hu, if_false]
    rw [if_pos hlt]
  rw [hstep]
  rcases (fuzzyFold_spec lower newMapping apiName after
    (some h, similarity lower h apiName)).2.2 with e | ⟨x, hx, hxu, hgt, _⟩
  · exact e
  · exact absurd hgt (not_lt.mpr (ha x hx hxu))

/-- C5: for target fields with distinct API names, the mapping left by `handleAutoMatch`
(whatever alias table `getTargetFieldMappings` delivers afterwards) never gives one CSV
header to two different fields.  Call a header unclaimed for a field when no field before
it in the list received it.  A field that is mapped receives an unclaimed header whose
score is at least one half and is the greatest score of an unclaimed header.  A field is
mapped to the header `h` whenever `h` is unclaimed, not empty, scores at least one half,
scores above every unclaimed header before it in the header list and at least as much as
every unclaimed header after it; in particular whenever `h` scores above every other
unclaimed header.  A field stays unmapped when every unclaimed header scores below one
half, and when the header in that first-best position is the empty string. -/
theorem handleAutoMatch_no_duplicate_claim (lower : Str → Str) (s : State)
    (aliasTable : AliasTable) (m : Obj)
    (hm : m = (targetFieldMappingsLoaded (handleAutoMatch lower s) aliasTable).fieldMapping)
    (hh : s.csvHeaders ≠ []) (hd : (s.availableFields.map Field.apiName).Nodup) :
    (∀ k1 k2 v, (k1, v) ∈ m → (k2, v) ∈ m → k1 = k2) ∧
    (∀ pre f post, s.availableFields = pre ++ f :: post →
      (∀ h, m.get f.apiName = some h →
        h ∈ s.csvHeaders ∧ (∀ g ∈ pre, m.get g.apiName ≠ some h) ∧
        1 / 2 ≤ similarity lower h f.apiName ∧
        ∀ h2 ∈ s.csvHeaders, (∀ g ∈ pre, m.get g.apiName ≠ some h2) →
          similarity lower h2 f.apiName ≤ similarity lower h f.apiName) ∧
      (∀ before h after, s.csvHeaders = before ++ h :: after →
        h ≠ [] → 1 / 2 ≤ similarity lower h f.apiName →
        (∀ g ∈ pre, m.get g.apiName ≠ some h) →
        (∀ h2 ∈ before, (∀ g ∈ pre, m.get g.apiName ≠ some h2) →
          similarity lower h2 f.apiName < similarity lower h f.apiName) →
        (∀ h2 ∈ after, (∀ g ∈ pre, m.get g.apiName ≠ some h2) →
          similarity lower h2 f.apiName ≤ similarity lower h f.apiName) →
        m.get f.apiName = some h) ∧
      (∀ h ∈ s.csvHeaders, h ≠ [] → 1 / 2 ≤ similarity lower h f.apiName →
        (∀ g ∈ pre, m.get g.apiName ≠ some h) →
        (∀ h2 ∈ s.csvHeaders, h2 ≠ h → (∀ g ∈ pre, m.get g.apiName ≠ some h2) →
          similarity lower h2 f.apiName < similarity lower h f.apiName) →
        m.get f.apiName = some h) ∧
      ((∀ h2 ∈ s.csvHeaders, (∀ g ∈ pre, m.get g.apiName ≠ some h2) →
          similarity lower h2 f.apiName < 1 / 2) →
        m.get f.apiName = none) ∧
      (∀ before after, s.csvHeaders = before ++ [] :: after →
        0 < similarity lower [] f.apiName →
        (∀ g ∈ pre, m.get g.apiName ≠ some []) →
        (∀ h2 ∈ before, (∀ g ∈ pre, m.get g.apiName ≠ some h2) →
          similarity lower h2 f.apiName < similarity lower [] f.apiName) →
        (∀ h2 ∈ after, (∀ g ∈ pre, m.get g.apiName ≠ some h2) →
          similarity lower h2 f.apiName ≤ similarity lower [] f.apiName) →
        m.get f.apiName = none)) := by
  have hm2 : m = autoMatchLoop lower [] s.availableFields s.csvHeaders := by
    rw [hm]
    exact handleAutoMatch_fieldMapping lower s hh
  subst hm2
  refine ⟨?_, ?_⟩
  · exact fuzzyFold_injective lower s.csvHeaders s.availableFields [] (by simp)
  · intro pre f post hsplit
    rw [hsplit] at hd ⊢
    have hcl : ∀ x, (∀ g ∈ pre,
          (autoMatchLoop lower [] (pre ++ f :: post) s.csvHeaders).get g.apiName ≠ some x) ↔
        x ∉ (autoMatchLoop lower [] pre s.csvHeaders).values := by
      intro x
      rw [claimed_iff lower s.csvHeaders pre (f :: post) hd x]
      simp
    have hspec := fuzzyPass_spec lower s.csvHeaders (autoMatchLoop lower [] pre s.csvHeaders)
      f.apiName
    have hmapped : ∀ h,
        (autoMatchLoop lower [] (pre ++ f :: post) s.csvHeaders).get f.apiName = some h →
        h ∈ s.csvHeaders ∧
        (∀ g ∈ pre,
          (autoMatchLoop lower [] (pre ++ f :: post) s.csvHeaders).get g.apiName ≠ some h) ∧
        1 / 2 ≤ similarity lower h f.apiName ∧
        ∀ h2 ∈ s.csvHeaders,
          (∀ g ∈ pre,
            (autoMatchLoop lower [] (pre ++ f :: post) s.csvHeaders).get g.apiName ≠ some h2) →
          similarity lower h2 f.apiName ≤ similarity lower h f.apiName := by
      intro h hget
      obtain ⟨e1, e2, _, e4⟩ := (autoMatchLoop_get lower s.csvHeaders pre post f hd h).mp hget
      rcases hspec.2 with e | ⟨x, _, hu, _, e⟩
      · rw [e] at e1; exact absurd e1 (by simp)
      · rw [e] at e1 e2
        have hx : x = h := Option.some.inj e1
        subst hx
        refine ⟨e4, (hcl x).mpr hu, e2, ?_⟩
        intro h2 hh2 hun2
        have := hspec.1 h2 hh2 ((hcl h2).mp hun2)
        rw [e] at this
        exact this
    have hsplitPass : ∀ before h after, s.csvHeaders = before ++ h :: after →
        0 < similarity lower h f.apiName →
        (∀ g ∈ pre,
          (autoMatchLoop lower [] (pre ++ f :: post) s.csvHeaders).get g.apiName ≠ some h) →
        (∀ h2 ∈ before,
          (∀ g ∈ pre,
            (autoMatchLoop lower [] (pre ++ f :: post) s.csvHeaders).get g.apiName ≠ some h2) →
          similarity lower h2 f.apiName < similarity lower h f.apiName) →
        (∀ h2 ∈ after,
          (∀ g ∈ pre,
            (autoMatchLoop lower [] (pre ++ f :: post) s.csvHeaders).get g.apiName ≠ some h2) →
          similarity lower h2 f.apiName ≤ similarity lower h f.apiName) →
        fuzzyPass lower s.csvHeaders (autoMatchLoop lower [] pre s.csvHeaders) f.apiName
          = (some h, similarity lower h f.apiName) := by
      intro before h after hs hpos hun hb ha
      have hp := fuzzyPass_of_split lower (autoMatchLoop lower [] pre s.csvHeaders) f.apiName
        before after h ((hcl h).mp hun) hpos
        (fun h2 hh2 hu2 => hb h2 hh2 ((hcl h2).mpr hu2))
        (fun h2 hh2 hu2 => ha h2 hh2 ((hcl h2).mpr hu2))
      rw [← hs] at hp
      exact hp
    have hfirst : ∀ before h after, s.csvHeaders = before ++ h :: after →
        h ≠ [] → 1 / 2 ≤ similarity lower h f.apiName →
        (∀ g ∈ pre,
          (autoMatchLoop lower [] (pre ++ f :: post) s.csvHeaders).get g.apiName ≠ some h) →
        (∀ h2 ∈ before,
          (∀ g ∈ pre,
            (autoMatchLoop lower [] (pre ++ f :: post) s.csvHeaders).get g.apiName ≠ some h2) →
          similarity lower h2 f.apiName < similarity lower h f.apiName) →
        (∀ h2 ∈ after,
          (∀ g ∈ pre,
            (autoMatchLoop lower [] (pre ++ f :: post) s.csvHeaders).get g.apiName ≠ some h2) →
          similarity lower h2 f.apiName ≤ similarity lower h f.apiName) →
        (autoMatchLoop lower [] (pre ++ f :: post) s.csvHeaders).get f.apiName = some h := by
      intro before h after hs hne hscore hun hb ha
      have hpos : 0 < similarity lower h f.apiName := lt_of_lt_of_le (by norm_num) hscore
      have hp := hsplitPass before h after hs hpos hun hb ha
      apply (autoMatchLoop_get lower s.csvHeaders pre post f hd h).mpr
      rw [hp]
      exact ⟨rfl, hscore, hne, by rw [hs]; simp⟩
    refine ⟨hmapped, hfirst, ?_, ?_, ?_⟩
    · intro h hmem hne hscore hun hbest
      obtain ⟨before, after, hs2, hnot⟩ := List.eq_append_cons_of_mem hmem
      apply hfirst before h after hs2 hne hscore hun
      · intro h2 hh2 hun2
        have hne2 : h2 ≠ h := fun e => hnot (e ▸ hh2)
        exact hbest h2 (by rw [hs2]; simp [hh2]) hne2 hun2
      · intro h2 hh2 hun2
        by_cases e : h2 = h
        · rw [e]
        · exact le_of_lt (hbest h2 (by rw [hs2]; simp [hh2]) e hun2)
    · intro hall
      apply Option.eq_none_iff_forall_not_mem.mpr
      intro h hget
      have hp := hmapped h hget
      have := hall h hp.1 hp.2.1
      exact absurd hp.2.2.1 (not_le.mpr this)
    · intro before after hs hpos hun hb ha
      have hp := hsplitPass before [] after hs hpos hun hb ha
      apply Option.eq_none_iff_forall_not_mem.mpr
      intro h hget
      obtain ⟨e1, _, e3, _⟩ := (autoMatchLoop_get lower s.csvHeaders pre post f hd h).mp hget
      rw [hp] at e1
      exact e3 (Option.some.inj e1).symm

theorem handleAutoMatch_no_duplicate_claim_witness :
    (handleAutoMatch asciiLower conflictSession).fieldMapping.get "Name__c".toList
        = some "Name".toList ∧
      (handleAutoMatch asciiLower conflictSession).fieldMapping.get "Name".toList
        = some "Full Name".toList ∧
      (handleAutoMatch asciiLower conflictSession).fieldMapping.get "Name__c".toList
        ≠ some "Full Name".toList := by
  have h := handleAutoMatch_no_duplicate_claim asciiLower conflictSession []
    (targetFieldMappingsLoaded (handleAutoMatch asciiLower conflictSession) []).fieldMapping rfl
    (by decide!) (by decide!)
  have h1 := (h.2 [] { apiName := "Name__c".toList, label := "Name".toList }
      [{ apiName := "Name".toList, label := "Name".toList }] (by decide!)).2.1
    [] "Name".toList ["Full Name".toList] (by decide!) (by decide!) (by decide!)
    (by intro g hg; cases hg) (by intro h2 hh2; cases hh2)
    (by
      intro h2 hh2 _
      have e : h2 = "Full Name".toList := by simpa using hh2
      rw [e]
      decide!)
  have h2 := (h.2 [{ apiName := "Name__c".toList, label := "Name".toList }]
      { apiName := "Name".toList, label := "Name".toList } [] (by decide!)).2.1
    ["Name".toList] "Full Name".toList [] (by decide!) (by decide!) (by decide!)
    (by
      intro g hg
      have e : g = { apiName := "Name__c".toList, label := "Name".toList } := by simpa using hg
      rw [e]
      decide!)
    (by
      intro h2 hh2 hun
      have e : h2 = "Name".toList := by simpa using hh2
      rw [e] at hun
      exact absurd h1 (hun { apiName := "Name__c".toList, label := "Name".toList } (by simp)))
    (by intro h2 hh2; cases hh2)
  have h3 := (h.2 [{ apiName := "Name__c".toList, label := "Name".toList }]
      { apiName := "Name".toList, label := "Name".toList } [] (by decide!)).1
    "Full Name".toList h2
  exact ⟨h1, h2, h3.2.1 { apiName := "Name__c".toList, label := "Name".toList } (by simp)⟩

/-! ## The mapping left by the auto-match and the clean-mapping invariant -/

/-- C6, as the claim states it, fails: with the headers `N/A` and one space and the
fields `A__c` and `A_B__c`, auto-match stores the sentinel `N/A` and a white-space-only
value in the mapping. -/
theorem handleAutoMatch_not_clean :
    (handleAutoMatch asciiLower sentinelSession).fieldMapping
        = [("A__c".toList, "N/A".toList), ("A_B__c".toList, " ".toList)] ∧
      ¬ (∀ v ∈ (handleAutoMatch asciiLower sentinelSession).fieldMapping.values,
          v ∈ sentinelSession.csvHeaders ∧ v ≠ NA ∧ ¬ (∀ c ∈ v, isWhiteSpace c = true)) := by
  have h : (handleAutoMatch asciiLower sentinelSession).fieldMapping
      = [("A__c".toList, "N/A".toList), ("A_B__c".toList, " ".toList)] := by decide!
  refine ⟨h, ?_⟩
  intro hall
  rw [h] at hall
  exact (hall NA (by decide)).2.1 rfl

/-- C6, amended: every value of the mapping left by `handleAutoMatch` is one of the
`csvHeaders` and is not empty; hence when no header is `N/A` or white-space-only, no
value is. -/
theorem handleAutoMatch_values_in_headers (lower : Str → Str) (s : State)
    (hh : s.csvHeaders ≠ []) :
    (∀ v ∈ (handleAutoMatch lower s).fieldMapping.values, v ∈ s.csvHeaders ∧ v ≠ []) ∧
      ((∀ h ∈ s.csvHeaders, h ≠ NA ∧ ¬ (∀ c ∈ h, isWhiteSpace c = true)) →
        ∀ v ∈ (handleAutoMatch lower s).fieldMapping.values,
          v ∈ s.csvHeaders ∧ v ≠ NA ∧ ¬ (∀ c ∈ v, isWhiteSpace c = true)) := by
  rw [handleAutoMatch_fieldMapping lower s hh]
  have h := autoMatchLoop_values lower [] s.availableFields s.csvHeaders
  refine ⟨h, ?_⟩
  intro hc v hv
  exact ⟨(h v hv).1, hc v (h v hv).1⟩

theorem handleAutoMatch_values_in_headers_witness :
    "Name".toList ∈ conflictSession.csvHeaders ∧ "Name".toList ≠ [] :=
  (handleAutoMatch_values_in_headers asciiLower conflictSession (by decide!)).1 "Name".toList
    (by decide!)

/-! ## Row keys and the headers of the upload -/

/-- C7 at a file with CRLF line ends: `handleFileUpload` derives the headers `Name` and
`Email`, while the rows of `parseCSV` carry the keys `Name` and `Email` followed by a
carriage return, so the header `Email` is not a key of the parsed row. -/
theorem parseCSV_keys_differ_from_csvHeaders :
    headersOfLine ((nonBlankLines crlfContent).headD []) = ["Name".toList, "Email".toList] ∧
      (parseCSV crlfContent).map Obj.keys = [["Name".toList, "Email\r".toList]] ∧
      ∃ row ∈ parseCSV crlfContent, "Email".toList ∉ row.keys := by
  refine ⟨by decide, by decide, ?_⟩
  exact ⟨[("Name".toList, "Ada".toList), ("Email\r".toList, "ada@x.org".toList)], by decide,
    by decide⟩

/-! ## Import: the executor guard and the step reached -/

/-- C8 at a session on the mapping step with an empty mapping: after `handleNext` (and the
`processRecordImport` it runs to completion) the step is `summary`, because the `finally`
block runs after the early `return`. -/
theorem handleNext_empty_mapping_reaches_summary :
    unmappedSession.currentStep = Step.mapping ∧
      cleanMapping unmappedSession.fieldMapping unmappedSession.csvHeaders = [] ∧
      (handleNext asciiLower unmappedSession).currentStep = Step.summary ∧
      (handleNext asciiLower unmappedSession).executorCalls = [] := by
  refine ⟨by decide!, by decide!, by decide!, by decide!⟩

theorem processRecordImport_blocked_step (s : State)
    (h : s.fieldMapping = [] ∨ cleanMapping s.fieldMapping s.csvHeaders = []) :
    (processRecordImport s).currentStep = Step.summary := by
  unfold processRecordImport
  simp only
  split
  · rfl
  · split
    · rfl
    · rename_i h1 h2
      rcases h with h | h
      · simp [h, Obj.keys] at h1
      · simp [h, Obj.keys] at h2

/-- C9: when `fieldMapping` is empty, or cleaning it against `csvHeaders` leaves nothing,
`processRecordImport` shows one more toast, a warning or an error, and makes no executor
call; an executor call is made exactly when both are non-empty, it is a single call, and
the mapping it carries is the non-empty cleaned mapping. -/
theorem processRecordImport_executor_guard (s : State) :
    ((s.fieldMapping = [] ∨ cleanMapping s.fieldMapping s.csvHeaders = []) →
      (processRecordImport s).executorCalls = s.executorCalls ∧
      ∃ t, (processRecordImport s).toasts = s.toasts ++ [t] ∧
        (t.variant = "warning".toList ∨ t.variant = "error".toList)) ∧
    ((processRecordImport s).executorCalls ≠ s.executorCalls →
      s.fieldMapping ≠ [] ∧
      ∃ call, (processRecordImport s).executorCalls = s.executorCalls ++ [call] ∧
        call.fieldMapping = cleanMapping s.fieldMapping s.csvHeaders ∧
        call.fieldMapping ≠ [] ∧ call.csvRows = parseCSV s.fileContent) ∧
    ((s.fieldMapping ≠ [] ∧ cleanMapping s.fieldMapping s.csvHeaders ≠ []) →
      (processRecordImport s).executorCalls ≠ s.executorCalls) := by
  have hk : ∀ o : Obj, o.keys.length = 0 ↔ o = [] := by
    intro o
    simp [Obj.keys]
  unfold processRecordImport
  simp only
  by_cases h1 : s.fieldMapping = []
  · have h1k : s.fieldMapping.keys.length = 0 := (hk _).mpr h1
    rw [if_pos h1k]
    refine ⟨fun _ => ⟨rfl, ⟨_, rfl, Or.inl rfl⟩⟩, fun h => absurd rfl h, fun h => absurd h1 h.1⟩
  · have h1k : ¬ s.fieldMapping.keys.length = 0 := fun e => h1 ((hk _).mp e)
    rw [if_neg h1k]
    by_cases h2 : cleanMapping s.fieldMapping s.csvHeaders = []
    · have h2k : (cleanMapping s.fieldMapping s.csvHeaders).keys.length = 0 := (hk _).mpr h2
      rw [if_pos h2k]
      refine ⟨fun _ => ⟨rfl, ⟨_, rfl, Or.inr rfl⟩⟩, fun h => absurd rfl h, fun h => absurd h2 h.2⟩
    · have h2k : ¬ (cleanMapping s.fieldMapping s.csvHeaders).keys.length = 0 :=
        fun e => h2 ((hk _).mp e)
      rw [if_neg h2k]
      refine ⟨fun h => ?_, fun _ => ⟨h1, ⟨_, rfl, rfl, h2, rfl⟩⟩, fun _ => ?_⟩
      · rcases h with h | h
        · exact absurd h h1
        · exact absurd h h2
      · simp

/-! ## Upload and the previous mapping -/

/-- C10, as the claim states it, fails: `reuploadSession` maps `Name__c` to the header
`Name`; after the same file is uploaded again `Name` is still a header, and the entry is
gone. -/
theorem handleFileUpload_drops_valid_entry :
    ("Name__c".toList, "Name".toList) ∈ reuploadSession.fieldMapping ∧
      "Name".toList ∈ (handleFileUpload reuploadSession sampleFile).csvHeaders ∧
      (handleFileUpload reuploadSession sampleFile).fieldMapping = [] ∧
      (handleFileUpload reuploadSession sampleFile).fieldMapping
        ≠ reuploadSession.fieldMapping.filter
            (fun e => decide (e.2 ∈ (handleFileUpload reuploadSession sampleFile).csvHeaders)) := by
  refine ⟨by decide!, by decide!, by decide!, by decide!⟩

/-- C10, amended: after a successful upload (the file passes the size and type guards,
is within the record limit and has a non-blank line) `csvHeaders` are the headers of the
first non-blank line and `fieldMapping` is empty: every previous entry is dropped, those
whose value is absent from the new headers and those whose value is still present. -/
theorem handleFileUpload_clears_mapping (s : State) (file : File)
    (hacc : fileAccepted file = true)
    (hlim : exceedsMaxRecords (nonBlankLines file.content).length s.maxRecords = false)
    (hne : nonBlankLines file.content ≠ []) :
    (handleFileUpload s file).csvHeaders
        = headersOfLine ((nonBlankLines file.content).headD []) ∧
      (handleFileUpload s file).fieldMapping = [] ∧
      ∀ k v, (k, v) ∈ s.fieldMapping → (k, v) ∉ (handleFileUpload s file).fieldMapping := by
  have hlen : (nonBlankLines file.content).length > 0 := List.length_pos.mpr hne
  have hstart : (handleFileUploadStart s file).maxRecords = s.maxRecords := by
    unfold handleFileUploadStart
    split
    · rfl
    · split <;> rfl
  have hfm : (handleFileUpload s file).csvHeaders
        = headersOfLine ((nonBlankLines file.content).headD []) ∧
      (handleFileUpload s file).fieldMapping = [] := by
    simp only [handleFileUpload, hacc, if_true, readerOnload, hstart, hlim, hlen]
    simp
  refine ⟨hfm.1, hfm.2, ?_⟩
  intro k v _ hmem
  rw [hfm.2] at hmem
  exact absurd hmem (by simp)

theorem handleFileUpload_clears_mapping_witness :
    (handleFileUpload reuploadSession sampleFile).csvHeaders = ["Name".toList, "Age".toList] ∧
      (handleFileUpload reuploadSession sampleFile).fieldMapping = [] :=
  have h := handleFileUpload_clears_mapping reuploadSession sampleFile (by decide) (by decide!)
    (by decide)
  ⟨h.1.trans (by decide), h.2.1⟩

/-! ## Blank lines -/

/-- C11 at a text whose first line is blank: `parseCSV` takes its headers from that blank
line and turns the real header line `A,B` into a data row, while the text with the blank
line removed gives the single row `A: 1, B: 2`; `handleFileUpload` takes the headers of
the same text from the first non-blank line. -/
theorem parseCSV_leading_blank_line :
    removeBlankLines leadingBlankContent = "A,B\n1,2".toList ∧
      parseCSV leadingBlankContent = [[([], "A".toList)], [([], "1".toList)]] ∧
      parseCSV (removeBlankLines leadingBlankContent)
        = [[("A".toList, "1".toList), ("B".toList, "2".toList)]] ∧
      headersOfLine ((nonBlankLines leadingBlankContent).headD []) = ["A".toList, "B".toList] := by
  refine ⟨by decide, by decide, by decide, by decide⟩

/-! ## Splitting a joined text -/

theorem splitOnChar_ne_nil (sep : Char) (s : Str) : splitOnChar sep s ≠ [] := by
  induction s with
  | nil => simp [splitOnChar]
  | cons c cs ih =>
    unfold splitOnChar
    split
    · simp
    · split
      · simp
      · simp

theorem splitOnChar_of_not_mem (sep : Char) (x : Str) (h : sep ∉ x) : splitOnChar sep x = [x] := by
  induction x with
  | nil => rfl
  | cons c cs ih =>
    have hc : c ≠ sep := fun e => h (by simp [e])
    have hcs : sep ∉ cs := fun e => h (List.mem_cons_of_mem _ e)
    simp [splitOnChar, hc, ih hcs]

theorem splitOnChar_append_sep (sep : Char) (x rest : Str) (h : sep ∉ x) :
    splitOnChar sep (x ++ sep :: rest) = x :: splitOnChar sep rest := by
  induction x with
  | nil => simp [splitOnChar]
  | cons c cs ih =>
    have hc : c ≠ sep := fun e => h (by simp [e])
    have hcs : sep ∉ cs := fun e => h (List.mem_cons_of_mem _ e)
    simp [splitOnChar, hc, ih hcs]

theorem splitOnChar_joinWith (sep : Char) (xs : List Str) (hne : xs ≠ [])
    (h : ∀ x ∈ xs, sep ∉ x) : splitOnChar sep (joinWith sep xs) = xs := by
  induction xs with
  | nil => exact absurd rfl hne
  | cons x rest ih =>
    cases rest with
    | nil => exact splitOnChar_of_not_mem sep x (h x (by simp))
    | cons y ys =>
      simp only [joinWith]
      rw [splitOnChar_append_sep sep x _ (h x (by simp))]
      rw [ih (by simp) (fun z hz => h z (List.mem_cons_of_mem _ hz))]

theorem not_mem_joinWith (sep c : Char) (xs : List Str) (hc : c ≠ sep) (h : ∀ x ∈ xs, c ∉ x) :
    c ∉ joinWith sep xs := by
  induction xs with
  | nil => simp [joinWith]
  | cons x rest ih =>
    cases rest with
    | nil => simpa [joinWith] using h x (by simp)
    | cons y ys =>
      simp only [joinWith, List.mem_append, List.mem_cons, not_or]
      exact ⟨h x (by simp), hc, ih (fun z hz => h z (List.mem_cons_of_mem _ hz))⟩

theorem parseCSVLineLoop_joinWith (cells : List Str) (result : List Str) (hne : cells ≠ [])
    (h : ∀ c ∈ cells, ',' ∉ c ∧ '"' ∉ c) :
    parseCSVLineLoop (joinWith ',' cells) result [] false = result ++ cells := by
  induction cells generalizing result with
  | nil => exact absurd rfl hne
  | cons x rest ih =>
    have hx := h x (by simp)
    cases rest with
    | nil =>
      have := parseCSVLineLoop_plain x [] result [] false hx.2 hx.1
      simpa [joinWith, parseCSVLineLoop] using this
    | cons y ys =>
      simp only [joinWith]
      rw [parseCSVLineLoop_plain x _ result [] false hx.2 hx.1]
      simp only [parseCSVLineLoop, List.nil_append]
      simp only [show (',' : Char) ≠ '"' by decide, if_false, true_and, if_true]
      rw [ih (result ++ [x]) (by simp) (fun z hz => h z (List.mem_cons_of_mem _ hz))]
      simp

theorem parseCSVLine_joinWith (cells : List Str) (hne : cells ≠ [])
    (h : ∀ c ∈ cells, ',' ∉ c ∧ '"' ∉ c) : parseCSVLine (joinWith ',' cells) = cells := by
  rw [parseCSVLine_eq_loop, parseCSVLineLoop_joinWith cells [] hne h]
  simp

/-- The value a row of `parseCSV` holds under a header, in terms of the untrimmed line. -/
theorem buildRow_get_of_line (headers : List Str) (line : Str) (hnd : headers.Nodup) (i : Nat)
    (hi : i < headers.length) (hp : headers.getD i [] ≠ protoKey) :
    (buildRow headers (parseCSVLine (trim line))).get (headers.getD i [])
      = some (if i < (parseCSVLine line).length then trim ((parseCSVLine line).getD i [])
          else []) := by
  rw [buildRow_get _ _ hnd i hi hp]
  have h := map_trim_parseCSVLine_trim line
  have hlen : (parseCSVLine (trim line)).length = (parseCSVLine line).length := by
    simpa using congrArg List.length h
  have hget := congrArg (fun l => l.getD i []) h
  simp only [List.getD_eq_getElem?_getD, List.getElem?_map] at hget
  by_cases hv : i < (parseCSVLine line).length
  · have hv2 : i < (parseCSVLine (trim line)).length := hlen ▸ hv
    simp only [hv, hv2, if_true, List.getD_eq_getElem?_getD]
    simp only [List.getElem?_eq_getElem hv, List.getElem?_eq_getElem hv2, Option.map_some,
      Option.getD_some] at hget ⊢
    exact congrArg some (by simpa using hget)
  · have hv2 : ¬ i < (parseCSVLine (trim line)).length := hlen ▸ hv
    simp [hv, hv2]

/-! ## Round trip of a grid without commas and quotes -/

theorem splitOnChar_gridText (header : List Str) (rows : List (List Str))
    (hh : ∀ c ∈ header, '\n' ∉ c) (hr : ∀ r ∈ rows, ∀ c ∈ r, '\n' ∉ c) :
    splitOnChar '\n' (gridText header rows)
      = joinWith ',' header :: rows.map (joinWith ',') := by
  unfold gridText
  rw [List.map_cons]
  apply splitOnChar_joinWith _ _ (by simp)
  intro x hx
  rcases List.mem_cons.mp hx with e | e
  · rw [e]
    exact not_mem_joinWith ',' '\n' header (by decide) hh
  · obtain ⟨r, hr1, hr2⟩ := List.mem_map.mp e
    rw [← hr2]
    exact not_mem_joinWith ',' '\n' r (by decide) (hr r hr1)

theorem parseCSV_gridText_eq (header : List Str) (rows : List (List Str))
    (hh : ∀ c ∈ header, '\n' ∉ c) (hr : ∀ r ∈ rows, ∀ c ∈ r, '\n' ∉ c)
    (hb : ∀ r ∈ rows, trim (joinWith ',' r) ≠ []) :
    parseCSV (gridText header rows)
      = rows.map (fun r =>
          buildRow (parseCSVLine (joinWith ',' header)) (parseCSVLine (trim (joinWith ',' r)))) := by
  simp only [parseCSV]
  rw [splitOnChar_gridText header rows hh hr, parseCSV_fold]
  simp only [List.headD_cons, List.drop_one, List.tail_cons, List.nil_append]
  have hf : (rows.map (joinWith ',')).filter (fun l => decide (trim l ≠ []))
      = rows.map (joinWith ',') := by
    apply List.filter_eq_self.mpr
    intro l hl
    obtain ⟨r, hr1, hr2⟩ := List.mem_map.mp hl
    simpa [← hr2] using hb r hr1
  rw [hf, List.map_map]
  rfl

/-- C12, as the claim states it, fails: a one-column grid whose only data cell is empty
gives a blank data line, which `parseCSV` skips, so no row is returned for the data row;
with a repeated header the value stored under the first header is the second cell; and
under a header `__proto__` the row stores nothing. -/
theorem parseCSV_gridText_not_round_trip :
    (parseCSV (gridText ["H".toList] [[[]]])).length = 0 ∧
      ((parseCSV (gridText ["A".toList, "A".toList] [["1".toList, "2".toList]])).getD 0 []).get
          "A".toList = some "2".toList ∧
      ((parseCSV (gridText ["__proto__".toList, "A".toList]
          [["x".toList, "y".toList]])).getD 0 []).get "__proto__".toList = none := by
  refine ⟨by decide, by decide, by decide⟩

/-- C12, amended: for a grid with distinct headers whose cells contain no comma, no quote
and no line feed and whose joined data lines are not blank, `parseCSV` of the joined text
returns one row per data row, in order, and the row at index `i` stores under the header
at index `j`, when that header is not `__proto__`, the trimmed cell at index `j` of the
data row at index `i` (the empty string when that row has no such cell). -/
theorem parseCSV_gridText_round_trip (header : List Str) (rows : List (List Str))
    (hd : header.Nodup)
    (hh : ∀ c ∈ header, ',' ∉ c ∧ '"' ∉ c ∧ '\n' ∉ c)
    (hr : ∀ r ∈ rows, ∀ c ∈ r, ',' ∉ c ∧ '"' ∉ c ∧ '\n' ∉ c)
    (hb : ∀ r ∈ rows, trim (joinWith ',' r) ≠ []) :
    (parseCSV (gridText header rows)).length = rows.length ∧
      ∀ i j, i < rows.length → j < header.length → header.getD j [] ≠ protoKey →
        ((parseCSV (gridText header rows)).getD i []).get (header.getD j [])
          = some (if j < (rows.getD i []).length then trim ((rows.getD i []).getD j [])
              else []) := by
  have he := parseCSV_gridText_eq header rows (fun c hc => (hh c hc).2.2)
    (fun r hr1 c hc => (hr r hr1 c hc).2.2) hb
  refine ⟨by rw [he, List.length_map], ?_⟩
  intro i j hi hj hp
  have hne : header ≠ [] := by
    intro e
    rw [e] at hj
    exact absurd hj (by simp)
  have hH : parseCSVLine (joinWith ',' header) = header :=
    parseCSVLine_joinWith header hne (fun c hc => ⟨(hh c hc).1, (hh c hc).2.1⟩)
  have hri : rows.getD i [] = rows[i] := by
    simp [List.getD_eq_getElem?_getD, List.getElem?_eq_getElem hi]
  have hmem : rows[i] ∈ rows := List.getElem_mem hi
  have hrne : rows[i] ≠ [] := by
    intro e
    have := hb _ hmem
    rw [e] at this
    exact this rfl
  have hR : parseCSVLine (joinWith ',' rows[i]) = rows[i] :=
    parseCSVLine_joinWith _ hrne (fun c hc => ⟨(hr _ hmem c hc).1, (hr _ hmem c hc).2.1⟩)
  have hrow : (parseCSV (gridText header rows)).getD i []
      = buildRow header (parseCSVLine (trim (joinWith ',' rows[i]))) := by
    rw [he, hH]
    simp [List.getD_eq_getElem?_getD, List.getElem?_map, List.getElem?_eq_getElem hi]
  rw [hrow, hri, buildRow_get_of_line header _ hd j hj hp, hR]

theorem parseCSV_gridText_round_trip_witness :
    (parseCSV (gridText ["H1".toList, "H2".toList]
        [[" x".toList, "y ".toList], ["z".toList, []]])).length = 2 ∧
      ((parseCSV (gridText ["H1".toList, "H2".toList]
        [[" x".toList, "y ".toList], ["z".toList, []]])).getD 0 []).get "H2".toList
        = some "y".toList :=
  have h := parseCSV_gridText_round_trip ["H1".toList, "H2".toList]
    [[" x".toList, "y ".toList], ["z".toList, []]] (by decide) (by decide) (by decide)
    (by decide)
  ⟨h.1, (h.2 0 1 (by decide) (by decide) (by decide)).trans (by decide)⟩

/-! ## The alias table and the auto-match -/

/-- C13 at a session with the field `Zip__c`, the aliases `Foo`, `Bar` for it and the
headers `Bar`, `Foo`: `handleAutoMatch` leaves `Zip__c` unmapped, whether the alias table
was delivered before the run or is delivered after it, because the loop reads the empty
local table; the same loop run on the alias table maps `Zip__c` to `Foo`. -/
theorem handleAutoMatch_ignores_aliases :
    aliasSession.directMappings = some zipAliases ∧
      aliasSession.csvHeaders = ["Bar".toList, "Foo".toList] ∧
      (handleAutoMatch asciiLower aliasSession).fieldMapping = [] ∧
      (targetFieldMappingsLoaded (handleAutoMatch asciiLower aliasSession) zipAliases).fieldMapping
        = [] ∧
      autoMatchLoop asciiLower zipAliases aliasSession.availableFields aliasSession.csvHeaders
        = [("Zip__c".toList, "Foo".toList)] := by
  refine ⟨by decide, by decide, by decide!, by decide!, by decide!⟩

/-! ## Navigation while an executor call is outstanding -/

/-- C14, as the claim states it, fails: in `pendingSession` an executor call is outstanding
(`isProcessing` is set, one call was made); `handlePrevious` moves the wizard from
`processing` to `mapping`, and a following `handleNext` makes a second executor call while
`isProcessing` is still set. -/
theorem handlePrevious_then_next_calls_again :
    pendingSession.isProcessing = true ∧ pendingSession.currentStep = Step.processing ∧
      pendingSession.executorCalls.length = 1 ∧
      (handlePrevious pendingSession).currentStep = Step.mapping ∧
      (handlePrevious pendingSession).isProcessing = true ∧
      (handleNext asciiLower (handlePrevious pendingSession)).executorCalls.length = 2 := by
  refine ⟨by decide!, by decide!, by decide!, by decide!, by decide!, by decide!⟩

/-- C14, amended: `handlePrevious` never calls the executor, and `handleNext` calls it
only from the step `mapping`; so while the wizard stays on `processing` (or `summary`)
no sequence of `handleNext` starts a second call.  `handlePrevious` is not guarded by
`isProcessing`: on the step `processing` it sets the step `mapping`. -/
theorem navigation_executor_calls (lower : Str → Str) (s : State) :
    (handlePrevious s).executorCalls = s.executorCalls ∧
      (handlePrevious s).isProcessing = s.isProcessing ∧
      (s.currentStep = Step.processing → (handlePrevious s).currentStep = Step.mapping) ∧
      (s.currentStep = Step.processing ∨ s.currentStep = Step.summary → handleNext lower s = s) ∧
      (s.currentStep ≠ Step.mapping →
        (handleNext lower s).executorCalls = s.executorCalls) := by
  refine ⟨?_, ?_, ?_, ?_, ?_⟩
  · unfold handlePrevious
    split
    · rfl
    · split
      · rfl
      · split <;> rfl
  · unfold handlePrevious
    split
    · rfl
    · split
      · rfl
      · split <;> rfl
  · intro h
    simp [handlePrevious, h]
  · intro h
    rcases h with h | h <;> simp [handleNext, h]
  · intro h
    unfold handleNext
    split
    · have h1 : ∀ t : State, (handleAutoMatch lower t).executorCalls = t.executorCalls := by
        intro t
        unfold handleAutoMatch
        split
        · rfl
        · simp only [showToast_executorCalls]
          unfold updateFieldMappingItems
          split <;> rfl
      have h2 : ∀ t : State, (updateFieldMappingItems t).executorCalls = t.executorCalls := by
        intro t
        unfold updateFieldMappingItems
        split <;> rfl
      simp only
      split
      · rw [h2, h1]
      · simp only [loadAvailableFields]
        rw [h1]
    · rfl

/-! ## The record-limit pre-check -/

theorem updateFieldMappingItems_toasts (s : State) :
    (updateFieldMappingItems s).toasts = s.toasts := by
  unfold updateFieldMappingItems
  split <;> rfl

theorem exceedsMaxRecords_iff (n : Nat) (maxRecords : Option Int) :
    exceedsMaxRecords n maxRecords = true ↔ ∃ m, maxRecords = some m ∧ (n : Int) - 1 > m := by
  cases maxRecords with
  | none => simp [exceedsMaxRecords]
  | some m => simp [exceedsMaxRecords]

theorem updateFieldMappingItems_fileContent (s : State) :
    (updateFieldMappingItems s).fileContent = s.fileContent := by
  unfold updateFieldMappingItems
  split <;> rfl

theorem updateFieldMappingItems_uploadedFileName (s : State) :
    (updateFieldMappingItems s).uploadedFileName = s.uploadedFileName := by
  unfold updateFieldMappingItems
  split <;> rfl

theorem readerOnload_of_exceeds (s : State) (text : Str)
    (h : exceedsMaxRecords (nonBlankLines text).length s.maxRecords = true) :
    (readerOnload s text).csvHeaders = s.csvHeaders ∧
      (readerOnload s text).fieldMapping = s.fieldMapping ∧
      (readerOnload s text).fileContent = [] ∧ (readerOnload s text).uploadedFileName = [] ∧
      ∃ t, (readerOnload s text).toasts = s.toasts ++ [t] ∧ t.variant = "error".toList := by
  unfold readerOnload
  simp only
  split
  · exact ⟨rfl, rfl, rfl, rfl, _, rfl, rfl⟩
  · rename_i hc
    exact absurd h hc

theorem readerOnload_of_not_exceeds (s : State) (text : Str)
    (h : exceedsMaxRecords (nonBlankLines text).length s.maxRecords = false) :
    (readerOnload s text).fileContent = text ∧
      (readerOnload s text).uploadedFileName = s.uploadedFileName ∧
      ¬ ∃ t, (readerOnload s text).toasts = s.toasts ++ [t] ∧ t.variant = "error".toList := by
  unfold readerOnload
  simp only
  split
  · rename_i hc
    exact absurd (hc.symm.trans h) (by decide)
  · split
    · refine ⟨?_, ?_, ?_⟩
      · exact updateFieldMappingItems_fileContent _
      · exact updateFieldMappingItems_uploadedFileName _
      · rintro ⟨t, ht, hv⟩
        have ht2 := ht
        simp only [showToast] at ht2
        rw [updateFieldMappingItems_toasts] at ht2
        have h3 := List.append_cancel_left ht2
        have h4 : t.variant = "success".toList := by
          rw [← (List.cons.inj h3).1]
        rw [h4] at hv
        exact absurd hv (by decide)
    · refine ⟨rfl, rfl, ?_⟩
      rintro ⟨t, ht, _⟩
      have h3 : s.toasts.length = (s.toasts ++ [t]).length := congrArg List.length ht
      simp at h3

/-- C15: the `onload` callback rejects a text by the record-limit pre-check (it shows an
error toast) exactly when `maxRecords` is not null and the number of non-blank lines
minus one exceeds it; a text with exactly `maxRecords` data lines is accepted, and so is
every text when `maxRecords` is null. -/
theorem readerOnload_rejects_iff (s : State) (text : Str) :
    ((∃ t, (readerOnload s text).toasts = s.toasts ++ [t] ∧ t.variant = "error".toList) ↔
        ∃ m, s.maxRecords = some m ∧ ((nonBlankLines text).length : Int) - 1 > m) ∧
      (∀ m, s.maxRecords = some m → ((nonBlankLines text).length : Int) - 1 = m →
        (readerOnload s text).fileContent = text ∧
          ¬ ∃ t, (readerOnload s text).toasts = s.toasts ++ [t] ∧ t.variant = "error".toList) ∧
      (s.maxRecords = none →
        (readerOnload s text).fileContent = text ∧
          ¬ ∃ t, (readerOnload s text).toasts = s.toasts ++ [t] ∧ t.variant = "error".toList) := by
  refine ⟨?_, ?_, ?_⟩
  · rw [← exceedsMaxRecords_iff]
    cases h : exceedsMaxRecords (nonBlankLines text).length s.maxRecords with
    | true => simpa using (readerOnload_of_exceeds s text h).2.2.2.2
    | false => simpa using (readerOnload_of_not_exceeds s text h).2.2
  · intro m hm he
    have h : exceedsMaxRecords (nonBlankLines text).length s.maxRecords = false := by
      simp [exceedsMaxRecords, hm, he]
    exact ⟨(readerOnload_of_not_exceeds s text h).1, (readerOnload_of_not_exceeds s text h).2.2⟩
  · intro hm
    have h : exceedsMaxRecords (nonBlankLines text).length s.maxRecords = false := by
      simp [exceedsMaxRecords, hm]
    exact ⟨(readerOnload_of_not_exceeds s text h).1, (readerOnload_of_not_exceeds s text h).2.2⟩

theorem handleFileUploadStart_frame (s : State) (file : File) :
    (handleFileUploadStart s file).csvHeaders = s.csvHeaders ∧
      (handleFileUploadStart s file).fieldMapping = s.fieldMapping ∧
      (handleFileUploadStart s file).maxRecords = s.maxRecords ∧
      (handleFileUploadStart s file).fileContent = s.fileContent := by
  unfold handleFileUploadStart
  split
  · exact ⟨rfl, rfl, rfl, rfl⟩
  · split
    · exact ⟨rfl, rfl, rfl, rfl⟩
    · exact ⟨rfl, rfl, rfl, rfl⟩

/-- C16: when the record-limit pre-check rejects a file, `csvHeaders` and `fieldMapping`
after the upload attempt are those before it. -/
theorem handleFileUpload_limit_keeps_mapping (s : State) (file : File)
    (h : exceedsMaxRecords (nonBlankLines file.content).length s.maxRecords = true) :
    (handleFileUpload s file).csvHeaders = s.csvHeaders ∧
      (handleFileUpload s file).fieldMapping = s.fieldMapping := by
  have hf := handleFileUploadStart_frame s file
  unfold handleFileUpload
  split
  · have h2 : exceedsMaxRecords (nonBlankLines file.content).length
        (handleFileUploadStart s file).maxRecords = true := by rw [hf.2.2.1]; exact h
    have hr := readerOnload_of_exceeds (handleFileUploadStart s file) file.content h2
    exact ⟨hr.1.trans hf.1, hr.2.1.trans hf.2.1⟩
  · exact ⟨hf.1, hf.2.1⟩

theorem handleFileUpload_limit_keeps_mapping_witness :
    (handleFileUpload limit5Session sixLineFile).csvHeaders = ["Name".toList, "Age".toList] ∧
      (handleFileUpload limit5Session sixLineFile).fieldMapping
        = [("Name__c".toList, "Name".toList)] :=
  have h := handleFileUpload_limit_keeps_mapping limit5Session sixLineFile (by decide!)
  ⟨h.1.trans (by decide!), h.2.trans (by decide!)⟩

/-! ## Rejected uploads -/

/-- C17, as the claim states it, fails: with `maxRecords = 1` and the file `one.csv`
uploaded, a second file with two data lines is rejected by the record-limit pre-check,
and `uploadedFileName` and `fileContent` are then empty, not those of `one.csv`. -/
theorem handleFileUpload_limit_clears_file :
    limitSession.uploadedFileName = "one.csv".toList ∧
      limitSession.fileContent = "Name\nx".toList ∧
      exceedsMaxRecords (nonBlankLines twoLineFile.content).length limitSession.maxRecords = true ∧
      (handleFileUpload limitSession twoLineFile).uploadedFileName = [] ∧
      (handleFileUpload limitSession twoLineFile).fileContent = [] := by
  refine ⟨by decide, by decide, by decide, by decide, by decide⟩

/-- C17, amended: a file rejected for its size (above 10485760 bytes) or for its type
(neither the MIME type `text/csv` nor a name ending in `.csv`) leaves `uploadedFileName`,
`fileContent`, `csvHeaders` and `fieldMapping` unchanged; a file rejected by the
record-limit pre-check leaves `csvHeaders` and `fieldMapping` unchanged and resets
`uploadedFileName` and `fileContent` to the empty string. -/
theorem handleFileUpload_rejected (s : State) (file : File) :
    (fileAccepted file = false ↔
        (file.size > 10485760 ∨
          (file.type ≠ "text/csv".toList ∧ endsWith file.name ".csv".toList = false))) ∧
      (fileAccepted file = false →
        (handleFileUpload s file).uploadedFileName = s.uploadedFileName ∧
        (handleFileUpload s file).fileContent = s.fileContent ∧
        (handleFileUpload s file).csvHeaders = s.csvHeaders ∧
        (handleFileUpload s file).fieldMapping = s.fieldMapping) ∧
      (fileAccepted file = true →
        exceedsMaxRecords (nonBlankLines file.content).length s.maxRecords = true →
        (handleFileUpload s file).uploadedFileName = [] ∧
        (handleFileUpload s file).fileContent = [] ∧
        (handleFileUpload s file).csvHeaders = s.csvHeaders ∧
        (handleFileUpload s file).fieldMapping = s.fieldMapping) := by
  have hiff : fileAccepted file = false ↔
      (file.size > 10485760 ∨
        (file.type ≠ "text/csv".toList ∧ endsWith file.name ".csv".toList = false)) := by
    unfold fileAccepted MAX_FILE_SIZE
    by_cases h1 : file.size > 10485760
    · simp [h1]
    · by_cases h2 : file.type = "text/csv".toList
      · simp [h1, h2]
      · cases h3 : endsWith file.name ".csv".toList <;> simp [h1, h2, h3]
  refine ⟨hiff, ?_, ?_⟩
  · intro h
    have hr := hiff.mp h
    simp only [handleFileUpload, h, Bool.false_eq_true, if_false]
    unfold handleFileUploadStart MAX_FILE_SIZE
    split
    · exact ⟨rfl, rfl, rfl, rfl⟩
    · rename_i h1
      split
      · exact ⟨rfl, rfl, rfl, rfl⟩
      · rename_i h2
        rcases hr with e | e
        · exact absurd e h1
        · exact absurd e h2
  · intro h hex
    have hf := handleFileUploadStart_frame s file
    have h2 : exceedsMaxRecords (nonBlankLines file.content).length
        (handleFileUploadStart s file).maxRecords = true := by rw [hf.2.2.1]; exact hex
    have hr := readerOnload_of_exceeds (handleFileUploadStart s file) file.content h2
    simp only [handleFileUpload, h, if_true]
    exact ⟨hr.2.2.2.1, hr.2.2.1, hr.1.trans hf.1, hr.2.1.trans hf.2.1⟩

/-! ## Cleaning twice -/

theorem cleanMapping_filter (m : Obj) (H : List Str) (hwf : m.WF) :
    cleanMapping m H
      = m.filter (fun e => decide (e.2 ≠ NA ∧ (¬ ∀ c ∈ e.2, isWhiteSpace c = true) ∧ e.2 ∈ H)) := by
  have h := cleanMapping_fold H [] m (by simpa using hwf)
  simpa only [List.nil_append, List.filter_nil] using h

theorem wf_filter (m : Obj) (p : Str × Str → Bool) (hwf : m.WF) : Obj.WF (m.filter p) := by
  simp only [Obj.WF, Obj.keys] at hwf ⊢
  exact List.Nodup.sublist (List.Sublist.map _ (List.filter_sublist m)) hwf

/-- C18: cleaning is idempotent, and a mapping whose values are all headers, none of them
`N/A`, empty or white-space-only, is left unchanged by cleaning. -/
theorem cleanMapping_idempotent (m : Obj) (H : List Str) (hwf : m.WF) :
    cleanMapping (cleanMapping m H) H = cleanMapping m H ∧
      ((∀ v ∈ m.values, v ∈ H ∧ v ≠ NA ∧ ¬ (∀ c ∈ v, isWhiteSpace c = true)) →
        cleanMapping m H = m) := by
  rw [cleanMapping_filter m H hwf]
  refine ⟨?_, ?_⟩
  · rw [cleanMapping_filter _ H (wf_filter m _ hwf), List.filter_filter]
    simp
  · intro h
    apply List.filter_eq_self.mpr
    intro e he
    have hv := h e.2 (List.mem_map_of_mem Prod.snd he)
    exact decide_eq_true ⟨hv.2.1, hv.2.2, hv.1⟩

theorem cleanMapping_idempotent_witness :
    cleanMapping (cleanMapping [("A".toList, "x".toList), ("B".toList, "N/A".toList)]
        ["x".toList]) ["x".toList]
      = [("A".toList, "x".toList)] :=
  ((cleanMapping_idempotent [("A".toList, "x".toList), ("B".toList, "N/A".toList)]
      ["x".toList] (by decide)).1).trans (by decide)

/-! ## Texts without a non-blank line -/

theorem parseCSV_of_blank (text : Str) (hb : nonBlankLines text = []) : parseCSV text = [] := by
  simp only [parseCSV]
  rw [parseCSV_fold]
  have hall : ∀ l ∈ splitOnChar '\n' text, trim l = [] := by
    intro l hl
    have := (List.filter_eq_nil_iff.mp hb) l hl
    simpa using this
  have hf : ((splitOnChar '\n' text).drop 1).filter (fun l => decide (trim l ≠ [])) = [] := by
    apply List.filter_eq_nil_iff.mpr
    intro l hl
    have := hall l (List.mem_of_mem_drop hl)
    simp [this]
  rw [hf]
  rfl

theorem readerOnload_of_blank (s : State) (text : Str) (hb : nonBlankLines text = []) :
    (readerOnload s text).csvHeaders = s.csvHeaders ∧
      (readerOnload s text).fieldMapping = s.fieldMapping := by
  unfold readerOnload
  simp only
  split
  · exact ⟨rfl, rfl⟩
  · split
    · rename_i hc
      have hc2 : (nonBlankLines text).length > 0 := hc
      rw [hb] at hc2
      exact absurd hc2 (by simp)
    · exact ⟨rfl, rfl⟩

/-- C19, as the claim states it, fails: after a file with headers `Name`, `Age` was
uploaded, uploading a file whose lines are all blank stores its text in `fileContent` and
leaves `csvHeaders` as they were, not empty. -/
theorem handleFileUpload_blank_keeps_headers :
    nonBlankLines blankFile.content = [] ∧
      (handleFileUpload reuploadSession blankFile).fileContent = blankFile.content ∧
      (handleFileUpload reuploadSession blankFile).csvHeaders = ["Name".toList, "Age".toList] ∧
      (handleFileUpload reuploadSession blankFile).csvHeaders ≠ [] := by
  refine ⟨by decide, by decide, by decide!, by decide!⟩

/-- C19, amended: for a text with zero non-blank lines `parseCSV` returns the empty row
list, and `handleFileUpload` leaves `csvHeaders` and `fieldMapping` as they were; so the
headers held after the upload are the empty list when they were empty before it, as in
the initial state. -/
theorem handleFileUpload_blank_text (s : State) (file : File)
    (hb : nonBlankLines file.content = []) :
    parseCSV file.content = [] ∧
      (handleFileUpload s file).csvHeaders = s.csvHeaders ∧
      (handleFileUpload s file).fieldMapping = s.fieldMapping ∧
      (s.csvHeaders = [] → (handleFileUpload s file).csvHeaders = []) := by
  have hf := handleFileUploadStart_frame s file
  have hh : (handleFileUpload s file).csvHeaders = s.csvHeaders ∧
      (handleFileUpload s file).fieldMapping = s.fieldMapping := by
    unfold handleFileUpload
    split
    · have hr := readerOnload_of_blank (handleFileUploadStart s file) file.content hb
      exact ⟨hr.1.trans hf.1, hr.2.trans hf.2.1⟩
    · exact ⟨hf.1, hf.2.1⟩
  exact ⟨parseCSV_of_blank _ hb, hh.1, hh.2, fun e => hh.1.trans e⟩

theorem handleFileUpload_blank_text_witness :
    parseCSV blankFile.content = [] ∧
      (handleFileUpload (State.init [] [] none [] []) blankFile).csvHeaders = [] :=
  have h := handleFileUpload_blank_text (State.init [] [] none [] []) blankFile (by decide)
  ⟨h.1, h.2.2.2 rfl⟩

/-! ## Order of the alias pass -/

theorem aliasExact_mem (lower : Str → Str) (csvHeaders aliases : List Str) (h : Str)
    (e : aliasExact lower csvHeaders aliases = some h) : h ∈ csvHeaders := by
  induction aliases with
  | nil => simp [aliasExact] at e
  | cons a rest ih =>
    unfold aliasExact at e
    split at e
    · rename_i x hx
      have : x = h := Option.some.inj e
      exact this ▸ List.mem_of_find?_eq_some hx
    · exact ih e

theorem aliasNormalized_mem (lower : Str → Str) (csvHeaders normalized : List Str) (h : Str)
    (e : aliasNormalized lower csvHeaders normalized = some h) : h ∈ csvHeaders := by
  induction normalized with
  | nil => simp [aliasNormalized] at e
  | cons a rest ih =>
    unfold aliasNormalized at e
    split at e
    · rename_i x hx
      have : x = h := Option.some.inj e
      exact this ▸ List.mem_of_find?_eq_some hx
    · exact ih e

theorem aliasPass_mem (lower : Str → Str) (csvHeaders aliases normalized : List Str) (h : Str)
    (e : aliasPass lower csvHeaders aliases normalized = some h) : h ∈ csvHeaders := by
  unfold aliasPass at e
  simp only at e
  split at e
  · exact aliasExact_mem lower _ _ _ e
  · split at e
    · rename_i x hx
      have : x = h := Option.some.inj e
      exact this ▸ aliasNormalized_mem lower _ _ _ hx
    · exact aliasExact_mem lower _ _ _ e

theorem aliasExact_split (lower : Str → Str) (csvHeaders pre post : List Str) (a h : Str)
    (hpre : ∀ b ∈ pre, csvHeaders.find? (fun x => decide (lower (trim x) = lower b)) = none)
    (ha : csvHeaders.find? (fun x => decide (lower (trim x) = lower a)) = some h) :
    aliasExact lower csvHeaders (pre ++ a :: post) = some h := by
  induction pre with
  | nil => simp [aliasExact, ha]
  | cons b rest ih =>
    simp only [List.cons_append, aliasExact, hpre b (by simp)]
    exact ih (fun c hc => hpre c (List.mem_cons_of_mem _ hc))

theorem aliasExact_none (lower : Str → Str) (csvHeaders aliases : List Str)
    (h : ∀ a ∈ aliases, csvHeaders.find? (fun x => decide (lower (trim x) = lower a)) = none) :
    aliasExact lower csvHeaders aliases = none := by
  induction aliases with
  | nil => rfl
  | cons a rest ih =>
    simp only [aliasExact, h a (by simp)]
    exact ih (fun c hc => h c (List.mem_cons_of_mem _ hc))

theorem aliasNormalized_split (lower : Str → Str) (csvHeaders pre post : List Str) (a h : Str)
    (hpre : ∀ b ∈ pre, csvHeaders.find? (fun x => decide (normalize lower x = b)) = none)
    (ha : csvHeaders.find? (fun x => decide (normalize lower x = a)) = some h) :
    aliasNormalized lower csvHeaders (pre ++ a :: post) = some h := by
  induction pre with
  | nil => simp [aliasNormalized, ha]
  | cons b rest ih =>
    simp only [List.cons_append, aliasNormalized, hpre b (by simp)]
    exact ih (fun c hc => hpre c (List.mem_cons_of_mem _ hc))

/-- C20, as the claim states it, fails: for the aliases `First Name`, `fname` and the
headers `first_name`, `fname` the alias pass chooses `fname`, the exact match of the second
alias, although the first alias matches `first_name` in normalised form; the loop of the
auto-match run on a table with these aliases maps the field to `fname`. -/
theorem aliasPass_prefers_exact_of_later_alias :
    aliasPass asciiLower nameHeaders nameAliases (nameAliases.map (normalize asciiLower))
        = some "fname".toList ∧
      normalize asciiLower "first_name".toList = normalize asciiLower "First Name".toList ∧
      autoMatchLoop asciiLower [("Contact__c".toList, nameAliases)]
          [{ apiName := "Contact__c".toList, label := "Contact".toList }] nameHeaders
        = [("Contact__c".toList, "fname".toList)] := by
  refine ⟨by decide, by decide, by decide!⟩

/-- C20, amended: the alias pass first tries every alias, in listed order, for a
case-insensitive exact header match, and the first alias with such a match wins even when
an earlier alias has a normalised match; only when no alias has an exact match are the
normalised aliases tried, in listed order, and the first with a match wins.  The header so
found (when not empty) is the header the loop records for the field. -/
theorem aliasPass_order (lower : Str → Str) (csvHeaders aliases : List Str) :
    (∀ pre a post h, aliases = pre ++ a :: post →
        (∀ b ∈ pre, csvHeaders.find? (fun x => decide (lower (trim x) = lower b)) = none) →
        csvHeaders.find? (fun x => decide (lower (trim x) = lower a)) = some h → h ≠ [] →
        aliasPass lower csvHeaders aliases (aliases.map (normalize lower)) = some h) ∧
      ((∀ a ∈ aliases, csvHeaders.find? (fun x => decide (lower (trim x) = lower a)) = none) →
        ∀ pre a post h, aliases = pre ++ a :: post →
          (∀ b ∈ pre,
            csvHeaders.find? (fun x => decide (normalize lower x = normalize lower b)) = none) →
          csvHeaders.find? (fun x => decide (normalize lower x = normalize lower a)) = some h →
          aliasPass lower csvHeaders aliases (aliases.map (normalize lower)) = some h) ∧
      (∀ (directMappings : AliasTable) (newMapping : Obj) (field : Field) (c : Char) (cs : Str),
        directMappings.get field.apiName = some aliases →
        aliasPass lower csvHeaders aliases (aliases.map (normalize lower)) = some (c :: cs) →
        autoMatchField lower directMappings csvHeaders newMapping field
          = newMapping.set field.apiName (c :: cs)) := by
  refine ⟨?_, ?_, ?_⟩
  · intro pre a post h hs hpre ha hne
    have he : aliasExact lower csvHeaders aliases = some h := by
      rw [hs]
      exact aliasExact_split lower csvHeaders pre post a h hpre ha
    have ht : truthy (some h) = true := by
      cases h with
      | nil => exact absurd rfl hne
      | cons c cs => rfl
    simp [aliasPass, he, ht]
  · intro hnone pre a post h hs hpre ha
    have he : aliasExact lower csvHeaders aliases = none := aliasExact_none lower _ _ hnone
    have hn : aliasNormalized lower csvHeaders (aliases.map (normalize lower)) = some h := by
      rw [hs, List.map_append, List.map_cons]
      apply aliasNormalized_split lower csvHeaders _ _ _ h _ ha
      intro b hb
      obtain ⟨b0, hb0, e⟩ := List.mem_map.mp hb
      rw [← e]
      exact hpre b0 hb0
    simp [aliasPass, he, truthy, hn]
  · intro directMappings newMapping field c cs hget hpass
    have hmem := aliasPass_mem lower _ _ _ _ hpass
    simp only [autoMatchField, hget, hpass, hmem, if_true]

theorem aliasPass_order_witness :
    aliasPass asciiLower nameHeaders nameAliases (nameAliases.map (normalize asciiLower))
      = some "fname".toList :=
  (aliasPass_order asciiLower nameHeaders nameAliases).1 ["First Name".toList] "fname".toList []
    "fname".toList (by decide) (by decide) (by decide) (by decide)

/-! ## Blank lines after a non-blank first line -/

theorem not_mem_of_mem_splitOnChar (sep : Char) (s : Str) :
    ∀ l ∈ splitOnChar sep s, sep ∉ l := by
  induction s with
  | nil => simp [splitOnChar]
  | cons c cs ih =>
    intro l hl
    unfold splitOnChar at hl
    split at hl
    · rcases List.mem_cons.mp hl with e | e
      · simp [e]
      · exact ih l e
    · rename_i hc
      split at hl
      · rename_i h0
        exact absurd h0 (splitOnChar_ne_nil sep cs)
      · rename_i w ws hw
        rcases List.mem_cons.mp hl with e | e
        · rw [e]
          intro hm
          rcases List.mem_cons.mp hm with e2 | e2
          · exact hc e2.symm
          · exact ih w (by simp [hw]) e2
        · exact ih l (by simp [hw, e])

/-- When the first line is not blank, removing the blank lines does not change the rows
of `parseCSV`: blank lines after the header line are skipped. -/
theorem parseCSV_removeBlankLines (text : Str)
    (h0 : trim ((splitOnChar '\n' text).headD []) ≠ []) :
    parseCSV (removeBlankLines text) = parseCSV text := by
  cases hl : splitOnChar '\n' text with
  | nil => exact absurd hl (splitOnChar_ne_nil _ _)
  | cons l0 rest =>
    rw [hl] at h0
    simp only [List.headD_cons] at h0
    have hlen : (trim l0).length > 0 := List.length_pos.mpr h0
    have hnb : nonBlankLines text
        = l0 :: rest.filter (fun line => decide ((trim line).length > 0)) := by
      simp [nonBlankLines, hl, hlen]
    have hsep : ∀ l ∈ nonBlankLines text, '\n' ∉ l := by
      intro l hm
      apply not_mem_of_mem_splitOnChar '\n' text l
      exact (List.mem_filter.mp hm).1
    have hsplit : splitOnChar '\n' (removeBlankLines text) = nonBlankLines text := by
      unfold removeBlankLines
      exact splitOnChar_joinWith '\n' _ (by simp [hnb]) hsep
    simp only [parseCSV]
    rw [hsplit, hnb, hl, parseCSV_fold, parseCSV_fold]
    simp only [List.headD_cons, List.drop_one, List.tail_cons, List.nil_append, List.filter_filter]
    congr 1
    apply List.filter_congr
    intro l _
    by_cases ht : trim l = []
    · simp [ht]
    · simp [ht, List.length_pos.mpr ht]

/-! ## Joining the fields of a line -/

theorem joinWith_cons_of_ne_nil (sep : Char) (x : Str) (rest : List Str) (h : rest ≠ []) :
    joinWith sep (x :: rest) = x ++ sep :: joinWith sep rest := by
  cases rest with
  | nil => exact absurd rfl h
  | cons y ys => rfl

theorem parseCSVLineLoop_ne_nil (l : Str) (result : List Str) (current : Str) (inQuotes : Bool) :
    parseCSVLineLoop l result current inQuotes ≠ [] := by
  induction l generalizing result current inQuotes with
  | nil => simp [parseCSVLineLoop]
  | cons c cs ih =>
    by_cases h1 : c = '"'
    · simp only [parseCSVLineLoop, h1, if_true]
      exact ih _ _ _
    · by_cases h2 : c = ',' ∧ inQuotes = false
      · simp only [parseCSVLineLoop, h1, if_false, h2, and_self, if_true]
        rw [if_neg (by decide)]
        exact ih _ _ _
      · simp only [parseCSVLineLoop, h1, if_false, h2]
        exact ih _ _ _

theorem joinWith_parseCSVLineLoop (l : Str) (current : Str) (inQuotes : Bool) :
    joinWith ',' (parseCSVLineLoop l [] current inQuotes)
      = current ++ l.filter (fun c => decide (c ≠ '"')) := by
  induction l generalizing current inQuotes with
  | nil => simp [parseCSVLineLoop, joinWith]
  | cons c cs ih =>
    by_cases h1 : c = '"'
    · simp only [parseCSVLineLoop, h1, if_true]
      rw [ih]
      simp
    · by_cases h2 : c = ',' ∧ inQuotes = false
      · obtain ⟨hc, hq⟩ := h2
        subst hc
        subst hq
        have e : parseCSVLineLoop (',' :: cs) [] current false
            = parseCSVLineLoop cs [current] [] false := by
          simp [parseCSVLineLoop]
        rw [e, parseCSVLineLoop_result, List.singleton_append,
          joinWith_cons_of_ne_nil _ _ _ (parseCSVLineLoop_ne_nil _ _ _ _), ih]
        simp
      · simp only [parseCSVLineLoop, h1, if_false, h2]
        rw [ih]
        simp [h1]

/-- C24: joining the fields returned by `parseCSVLine` with `,` gives the line with every
quote character deleted; no returned field contains a quote character, and the final
strip-surrounding-quotes step changes no field. -/
theorem parseCSVLine_join (line : Str) :
    joinWith ',' (parseCSVLine line) = line.filter (fun c => decide (c ≠ '"')) ∧
      (∀ field ∈ parseCSVLine line, '"' ∉ field) ∧
      (∀ field ∈ parseCSVLineLoop line [] [] false, stripQuotes field = field) ∧
      parseCSVLine line = parseCSVLineLoop line [] [] false := by
  have hq := parseCSVLineLoop_no_quote line [] [] false (by simp) (by simp)
  have he := parseCSVLine_eq_loop line
  refine ⟨?_, ?_, ?_, he⟩
  · rw [he, joinWith_parseCSVLineLoop]
    simp
  · rw [he]
    exact hq
  · intro field hf
    exact stripQuotes_of_no_quote field (hq field hf)

theorem parseCSVLine_join_sample :
    joinWith ',' (parseCSVLine "a,\"b,c\",\"\"d".toList) = "a,b,c,d".toList := by decide

/-! ## The auto-match does not read the alias table -/

theorem autoMatchLoop_nil_eq_fuzzy (lower : Str → Str) (fields : List Field)
    (csvHeaders : List Str) :
    autoMatchLoop lower [] fields csvHeaders = fields.foldl (fuzzyMatch lower csvHeaders) [] := by
  unfold autoMatchLoop
  have h : autoMatchField lower [] csvHeaders = fuzzyMatch lower csvHeaders := by
    funext newMapping field
    exact autoMatchField_nil lower csvHeaders newMapping field
  rw [h]

theorem handleAutoMatch_fieldMapping_of_nil (lower : Str → Str) (s : State)
    (hh : s.csvHeaders = []) : (handleAutoMatch lower s).fieldMapping = s.fieldMapping := by
  simp [handleAutoMatch, hh]

/-- C23: the mapping left by `handleAutoMatch` does not depend on the alias table: two
runs on states with the same `availableFields` and `csvHeaders`, whatever alias tables
were delivered before them or are delivered after them, leave the same `fieldMapping`
(when there are no headers no mapping is computed and `fieldMapping` keeps its value);
and the mapping computed is the one the fuzzy pass alone builds, field by field. -/
theorem handleAutoMatch_independent_of_aliases (lower : Str → Str) (s1 s2 : State)
    (t1 t2 : AliasTable) (hf : s1.availableFields = s2.availableFields)
    (hh : s1.csvHeaders = s2.csvHeaders) :
    (s1.csvHeaders ≠ [] ∨ s1.fieldMapping = s2.fieldMapping →
        (targetFieldMappingsLoaded (handleAutoMatch lower s1) t1).fieldMapping
          = (targetFieldMappingsLoaded (handleAutoMatch lower s2) t2).fieldMapping) ∧
      (s1.csvHeaders ≠ [] →
        (handleAutoMatch lower s1).fieldMapping
          = s1.availableFields.foldl (fuzzyMatch lower s1.csvHeaders) []) := by
  refine ⟨?_, ?_⟩
  · intro h
    show (handleAutoMatch lower s1).fieldMapping = (handleAutoMatch lower s2).fieldMapping
    by_cases hne : s1.csvHeaders = []
    · rw [handleAutoMatch_fieldMapping_of_nil lower s1 hne,
        handleAutoMatch_fieldMapping_of_nil lower s2 (hh ▸ hne)]
      rcases h with h | h
      · exact absurd hne h
      · exact h
    · rw [handleAutoMatch_fieldMapping lower s1 hne,
        handleAutoMatch_fieldMapping lower s2 (hh ▸ hne), hf, hh]
  · intro hne
    rw [handleAutoMatch_fieldMapping lower s1 hne]
    exact autoMatchLoop_nil_eq_fuzzy lower _ _

theorem handleAutoMatch_independent_of_aliases_witness :
    (targetFieldMappingsLoaded (handleAutoMatch asciiLower aliasSession) zipAliases).fieldMapping
        = (targetFieldMappingsLoaded
            (handleAutoMatch asciiLower
              { aliasSession with directMappings := none }) []).fieldMapping ∧
      (handleAutoMatch asciiLower aliasSession).fieldMapping
        = aliasSession.availableFields.foldl (fuzzyMatch asciiLower aliasSession.csvHeaders) [] :=
  have h := handleAutoMatch_independent_of_aliases asciiLower aliasSession
    { aliasSession with directMappings := none } zipAliases [] rfl rfl
  ⟨h.1 (Or.inl (by decide)), h.2 (by decide)⟩

/-! ## The similarity score, rule by rule -/

theorem splitWords_nil : splitWords [] = [[]] := rfl

theorem splitWords_cons (c : Char) (cs : Str) :
    splitWords (c :: cs)
      = if isWordSep c then
          match cs with
          | [] => [[], []]
          | d :: _ => if isWordSep d then splitWords cs else [] :: splitWords cs
        else
          match splitWords cs with
          | [] => [[c]]
          | w :: ws => (c :: w) :: ws := rfl

theorem splitWords_length_pos (s : Str) : 0 < (splitWords s).length := by
  induction s with
  | nil => exact Nat.zero_lt_one
  | cons c cs ih =>
    rw [splitWords_cons]
    by_cases h : isWordSep c = true
    · rw [if_pos h]
      cases cs with
      | nil => exact Nat.zero_lt_two
      | cons d ds =>
        by_cases h2 : isWordSep d = true
        · simp only [h2, if_true]
          exact ih
        · simp only [h2]
          exact Nat.succ_pos _
    · rw [if_neg h]
      cases splitWords cs with
      | nil => exact Nat.zero_lt_one
      | cons w ws => exact Nat.succ_pos _

theorem similarity_of_eq (lower : Str → Str) (header apiName : Str)
    (h : lower header = replaceFirst "__c".toList [] (lower apiName)) :
    similarity lower header apiName = 1 := by
  simp [similarity, h]

theorem similarity_of_includes (lower : Str → Str) (header apiName : Str)
    (hne : lower header ≠ replaceFirst "__c".toList [] (lower apiName))
    (h : includes (lower header) (replaceFirst "__c".toList [] (lower apiName)) = true ∨
      includes (replaceFirst "__c".toList [] (lower apiName)) (lower header) = true) :
    similarity lower header apiName = 4 / 5 := by
  have h2 : (includes (lower header) (replaceFirst "__c".toList [] (lower apiName)) ||
      includes (replaceFirst "__c".toList [] (lower apiName)) (lower header)) = true := by
    simpa using h
  simp only [similarity, hne, if_false, h2, if_true]

theorem similarity_of_words (lower : Str → Str) (header apiName : Str)
    (hne : lower header ≠ replaceFirst "__c".toList [] (lower apiName))
    (h1 : includes (lower header) (replaceFirst "__c".toList [] (lower apiName)) = false)
    (h2 : includes (replaceFirst "__c".toList [] (lower apiName)) (lower header) = false) :
    similarity lower header apiName
      = (1 / 2) *
        ((((splitWords (lower header)).filter (fun word =>
              (splitWords (replaceFirst "__c".toList [] (lower apiName))).any
                (fun fieldWord => wordsOverlap word fieldWord))).length : ℚ) /
          ((max (splitWords (lower header)).length
              (splitWords (replaceFirst "__c".toList [] (lower apiName))).length : Nat) : ℚ)) := by
  simp only [similarity, hne, if_false, h1, h2, Bool.or_self, Bool.false_eq_true]
  split
  · rfl
  · rename_i hc
    have h0 : ((splitWords (lower header)).filter (fun word =>
        (splitWords (replaceFirst "__c".toList [] (lower apiName))).any
          (fun fieldWord => wordsOverlap word fieldWord))).length = 0 := by
      have := Nat.eq_zero_of_not_pos hc
      exact this
    rw [h0]
    simp

theorem word_score_le_half (headerWords fieldWords : List Str) (p : Str → Bool)
    (hpos : 0 < headerWords.length) :
    (1 / 2 : ℚ) * (((headerWords.filter p).length : ℚ) /
        ((max headerWords.length fieldWords.length : Nat) : ℚ)) ≤ 1 / 2 := by
  have hm : (0 : ℚ) < ((max headerWords.length fieldWords.length : Nat) : ℚ) := by
    have : 0 < max headerWords.length fieldWords.length := lt_of_lt_of_le hpos (le_max_left _ _)
    exact_mod_cast this
  have hle : ((headerWords.filter p).length : ℚ)
      ≤ ((max headerWords.length fieldWords.length : Nat) : ℚ) := by
    have : (headerWords.filter p).length ≤ max headerWords.length fieldWords.length :=
      le_trans (List.length_filter_le _ _) (le_max_left _ _)
    exact_mod_cast this
  have h1 : ((headerWords.filter p).length : ℚ) /
      ((max headerWords.length fieldWords.length : Nat) : ℚ) ≤ 1 := (div_le_one hm).mpr hle
  linarith

/-- The header scores 1 exactly when its lower-case form equals the lower-case API name
as the program strips it. -/
theorem similarity_eq_one_iff (lower : Str → Str) (header apiName : Str) :
    similarity lower header apiName = 1 ↔
      lower header = replaceFirst "__c".toList [] (lower apiName) := by
  constructor
  · intro h
    by_contra hne
    by_cases hi : includes (lower header) (replaceFirst "__c".toList [] (lower apiName)) = true ∨
        includes (replaceFirst "__c".toList [] (lower apiName)) (lower header) = true
    · rw [similarity_of_includes lower header apiName hne hi] at h
      norm_num at h
    · have h1 : includes (lower header) (replaceFirst "__c".toList [] (lower apiName)) = false := by
        cases hx : includes (lower header) (replaceFirst "__c".toList [] (lower apiName))
        · rfl
        · exact absurd (Or.inl hx) hi
      have h2 : includes (replaceFirst "__c".toList [] (lower apiName)) (lower header) = false := by
        cases hx : includes (replaceFirst "__c".toList [] (lower apiName)) (lower header)
        · rfl
        · exact absurd (Or.inr hx) hi
      rw [similarity_of_words lower header apiName hne h1 h2] at h
      have := word_score_le_half (splitWords (lower header))
        (splitWords (replaceFirst "__c".toList [] (lower apiName)))
        (fun word => (splitWords (replaceFirst "__c".toList [] (lower apiName))).any
          (fun fieldWord => wordsOverlap word fieldWord)) (splitWords_length_pos _)
      rw [h] at this
      norm_num at this
  · exact similarity_of_eq lower header apiName

/-! ## The suffix stripped from the field name -/

/-- C21 at the field `ns__Code__c` and the header `ns__code`: the header equals the
lower-case API name with its trailing `__c` removed, yet it scores one half and not 1,
because the program removes the first `__c` of the name (the one opening `__code`) and
leaves the trailing one in place; the header that scores 1 is `nsode__c`. -/
theorem similarity_strips_first_occurrence :
    asciiLower "ns__code".toList = specStripSuffix (asciiLower "ns__Code__c".toList) ∧
      replaceFirst "__c".toList [] (asciiLower "ns__Code__c".toList) = "nsode__c".toList ∧
      similarity asciiLower "ns__code".toList "ns__Code__c".toList = 1 / 2 ∧
      similarity asciiLower "nsode__c".toList "ns__Code__c".toList = 1 := by
  refine ⟨by decide, by decide, by decide!, by decide!⟩

/-! ## The word-level score -/

/-- C22, as the claim states it, fails: for the header `first name` and the field
`firstname_x` neither the equality rule nor the substring rule applies; both header words
overlap a field word, so the program scores one half, while one of the two field words
overlaps a header word, so the formula of the claim gives one quarter. -/
theorem similarity_counts_header_words :
    asciiLower "first name".toList
        ≠ replaceFirst "__c".toList [] (asciiLower "firstname_x".toList) ∧
      includes (asciiLower "first name".toList)
        (replaceFirst "__c".toList [] (asciiLower "firstname_x".toList)) = false ∧
      includes (replaceFirst "__c".toList [] (asciiLower "firstname_x".toList))
        (asciiLower "first name".toList) = false ∧
      similarity asciiLower "first name".toList "firstname_x".toList = 1 / 2 ∧
      specWordScore (splitWords (asciiLower "first name".toList))
        (splitWords (replaceFirst "__c".toList [] (asciiLower "firstname_x".toList))) = 1 / 4 := by
  refine ⟨by decide, by decide, by decide, by decide!, by decide!⟩

/-- C22, amended: when neither the equality rule nor the substring rule applies, the
score is one half of the number of header words that overlap at least one field word,
divided by the greater of the two word counts; it is at most one half, and it is 0
exactly when no header word overlaps a field word. -/
theorem similarity_word_level (lower : Str → Str) (header apiName : Str)
    (headerWords fieldWords : List Str)
    (hhw : headerWords = splitWords (lower header))
    (hfw : fieldWords = splitWords (replaceFirst "__c".toList [] (lower apiName)))
    (hne : lower header ≠ replaceFirst "__c".toList [] (lower apiName))
    (h1 : includes (lower header) (replaceFirst "__c".toList [] (lower apiName)) = false)
    (h2 : includes (replaceFirst "__c".toList [] (lower apiName)) (lower header) = false) :
    similarity lower header apiName
        = (1 / 2) *
          (((headerWords.filter (fun word =>
              fieldWords.any (fun fieldWord => wordsOverlap word fieldWord))).length : ℚ) /
            ((max headerWords.length fieldWords.length : Nat) : ℚ)) ∧
      similarity lower header apiName ≤ 1 / 2 ∧
      (similarity lower header apiName = 0 ↔
        ∀ word ∈ headerWords, ∀ fieldWord ∈ fieldWords, wordsOverlap word fieldWord = false) := by
  have he := similarity_of_words lower header apiName hne h1 h2
  rw [← hhw, ← hfw] at he
  have hpos : 0 < headerWords.length := hhw ▸ splitWords_length_pos _
  have hm : (0 : ℚ) < ((max headerWords.length fieldWords.length : Nat) : ℚ) := by
    have : 0 < max headerWords.length fieldWords.length := lt_of_lt_of_le hpos (le_max_left _ _)
    exact_mod_cast this
  refine ⟨he, ?_, ?_⟩
  · rw [he]
    exact word_score_le_half headerWords fieldWords _ hpos
  · rw [he]
    constructor
    · intro h0
      have h3 : ((headerWords.filter (fun word =>
          fieldWords.any (fun fieldWord => wordsOverlap word fieldWord))).length : ℚ) = 0 := by
        rcases mul_eq_zero.mp h0 with h | h
        · norm_num at h
        · rcases div_eq_zero_iff.mp h with h | h
          · exact h
          · exact absurd h (ne_of_gt hm)
      have h4 : headerWords.filter (fun word =>
          fieldWords.any (fun fieldWord => wordsOverlap word fieldWord)) = [] := by
        apply List.length_eq_zero.mp
        exact_mod_cast h3
      intro word hw fieldWord hf
      have h5 := (List.filter_eq_nil_iff.mp h4) word hw
      cases hx : wordsOverlap word fieldWord
      · rfl
      · exact absurd (List.any_eq_true.mpr ⟨fieldWord, hf, hx⟩) h5
    · intro hall
      have h4 : headerWords.filter (fun word =>
          fieldWords.any (fun fieldWord => wordsOverlap word fieldWord)) = [] := by
        apply List.filter_eq_nil_iff.mpr
        intro word hw hany
        obtain ⟨fieldWord, hf, hx⟩ := List.any_eq_true.mp hany
        rw [hall word hw fieldWord hf] at hx
        exact absurd hx (by decide)
      rw [h4]
      simp

theorem similarity_word_level_witness :
    similarity asciiLower "last name".toList "Name_Last__c".toList = 1 / 2 :=
  ((similarity_word_level asciiLower "last name".toList "Name_Last__c".toList
      ["last".toList, "name".toList] ["name".toList, "last".toList] (by decide) (by decide)
      (by decide) (by decide) (by decide)).1).trans (by decide!)

end CsvRecordImport
